import Mathlib

/-!
Verification of the Phase 10 rule engine: a shallow embedding of the
deck manager (`src/utils/deck.ts`), the phase matcher
(`src/utils/phaseValidation.ts`) and the turn/round state machine
(`src/stores/gameStore.ts`), together with theorems settling the
spec claims about them.

Randomness (`Math.random`) is modelled by explicit streams: an id
stream `ids : Nat → Nat` feeding `generateCardId` (the k-th generated
card receives id `ids k`) and an index stream `rnd : Nat → Nat` feeding
the Fisher-Yates shuffle (at loop index `i` the swap partner is
`rnd i % (i + 1)`, matching `Math.floor(Math.random() * (i + 1))`).
-/

namespace Phase10

/-- Card colors (`CardColor` in `src/types/database.ts`). -/
inductive CardColor where
  | red | blue | green | yellow
deriving DecidableEq, Repr

/-- A card (`Card` in `src/types/database.ts`): unique id, color,
value (1-12 for numbered cards, 0 for wild, -1 for skip) and the
wild/skip flags.  Ids are modelled as naturals. -/
structure Card where
  id : Nat
  color : CardColor
  value : Int
  isWild : Bool
  isSkip : Bool
deriving DecidableEq, Repr

/-- The `COLORS` constant of `deck.ts`. -/
def COLORS : List CardColor := [.red, .blue, .green, .yellow]

/-- The `VALUES` constant of `deck.ts`. -/
def VALUES : List Int := [1, 2, 3, 4, 5, 6, 7, 8, 9, 10, 11, 12]

/-- `createDeck` of `deck.ts`.  The three loops are rendered as three
mapped ranges; the k-th card pushed overall receives id `ids k`,
mirroring the successive `generateCardId()` calls.  In the number-card
loop the outer index is the copy, then the color, then the value, so
the k-th number card (k = copy*48 + colorIdx*12 + valueIdx) has color
`COLORS[(k / 12) % 4]` and value `k % 12 + 1`. -/
def createDeck (ids : Nat → Nat) : List Card :=
  let numberCards := (List.range 96).map (fun k =>
    { id := ids k, color := COLORS.getD (k / 12 % 4) CardColor.red,
      value := ((k % 12 : Nat) : Int) + 1, isWild := false, isSkip := false })
  let wildCards := (List.range 8).map (fun i =>
    { id := ids (96 + i), color := COLORS.getD (i % 4) CardColor.red,
      value := 0, isWild := true, isSkip := false })
  let skipCards := (List.range 4).map (fun i =>
    { id := ids (104 + i), color := COLORS.getD i CardColor.red,
      value := -1, isWild := false, isSkip := true })
  numberCards ++ wildCards ++ skipCards

/-- One in-place swap `[a[i], a[j]] = [a[j], a[i]]` of the Fisher-Yates
loop, on lists.  Out-of-range indices leave the list unchanged (they
never occur in `shuffle`). -/
def listSwap (l : List α) (i j : Nat) : List α :=
  match l[i]?, l[j]? with
  | some a, some b => (l.set i b).set j a
  | _, _ => l

/-- The Fisher-Yates loop of `shuffle` in `deck.ts`: the counter runs
over the loop variable `i = len-1, …, 1`; at index `i` the swap partner
is `rnd i % (i + 1)`. -/
def shuffleGo (rnd : Nat → Nat) : Nat → List α → List α
  | 0, l => l
  | i + 1, l => shuffleGo rnd i (listSwap l (i + 1) (rnd (i + 1) % (i + 2)))

/-- `shuffle` of `deck.ts` (Fisher-Yates on a copy of the input). -/
def shuffle (rnd : Nat → Nat) (array : List α) : List α :=
  shuffleGo rnd (array.length - 1) array

/-- `dealCards` of `deck.ts`: `[deck.slice(0, count), deck.slice(count)]`. -/
def dealCards (deck : List Card) (count : Nat) : List Card × List Card :=
  (deck.take count, deck.drop count)

/-- `dealHands` of `deck.ts`: deal `cardsPerPlayer` cards to each of
`playerCount` players from the front of the deck. -/
def dealHands (deck : List Card) (playerCount : Nat) (cardsPerPlayer : Nat := 10) :
    List (List Card) × List Card :=
  match playerCount with
  | 0 => ([], deck)
  | n + 1 =>
    let (hand, rem) := dealCards deck cardsPerPlayer
    let (hands, remFinal) := dealHands rem n cardsPerPlayer
    (hand :: hands, remFinal)

/-- `createShuffledDeck` of `deck.ts`. -/
def createShuffledDeck (ids : Nat → Nat) (rnd : Nat → Nat) : List Card :=
  shuffle rnd (createDeck ids)

/-- The `while` loop of `setupGame` that flips the initial discard
card: pop the front of the draw pile; a skip card is moved to the
bottom and the loop repeats, the first non-skip card becomes the sole
discard pile entry.  The source loop runs unboundedly (and would
diverge on a non-empty all-skip pile); it is rendered with an explicit
iteration budget, `none` standing for a run that exceeds the budget.
`setupGame` passes the pile length as the budget, which theorem
`flipLoop_finds_nonSkip` shows suffices whenever any non-skip card is
present. -/
def flipLoop (budget : Nat) (drawPile : List Card) : Option (List Card × List Card) :=
  match budget, drawPile with
  | _, [] => some ([], [])
  | 0, _ :: _ => none
  | b + 1, topCard :: newDraw =>
    if topCard.isSkip then flipLoop b (newDraw ++ [topCard])
    else some (newDraw, [topCard])

/-- `setupGame` of `deck.ts`: shuffle a fresh deck, deal 10 cards to
each player, then flip the first non-skip card onto the discard pile. -/
def setupGame (ids : Nat → Nat) (rnd : Nat → Nat) (playerCount : Nat) :
    Option (List (List Card) × List Card × List Card) :=
  let deck := createShuffledDeck ids rnd
  let dealt := dealHands deck playerCount 10
  (flipLoop dealt.2.length dealt.2).map (fun p => (dealt.1, p.1, p.2))

/-- `getCardPoints` of `deck.ts`. -/
def getCardPoints (card : Card) : Nat :=
  if card.isWild then 25
  else if card.isSkip then 15
  else if card.value ≥ 10 then 10
  else 5

/-- `calculateHandScore` of `deck.ts`. -/
def calculateHandScore (hand : List Card) : Nat :=
  hand.foldl (fun total card => total + getCardPoints card) 0

/-- `removeCardById` of `deck.ts`: locate the first card with the
given id; on a miss return the hand unchanged (`undefined` rendered as
`none`), otherwise the removed card and the hand without it. -/
def removeCardById (cards : List Card) (cardId : Nat) : Option Card × List Card :=
  match cards.findIdx? (fun card => card.id == cardId) with
  | none => (none, cards)
  | some index => (cards[index]?, cards.take index ++ cards.drop (index + 1))

/-! ### Phase matcher (`src/utils/phaseValidation.ts`) -/

/-- `PhaseRequirementType` of `src/types/database.ts`. -/
inductive PhaseRequirementType where
  | set | run | color
deriving DecidableEq, Repr

/-- `PhaseRequirement` of `src/types/database.ts`. -/
structure PhaseRequirement where
  type : PhaseRequirementType
  size : Nat
  quantity : Nat
deriving DecidableEq, Repr

/-- `ValidationResult` of `phaseValidation.ts`. -/
structure ValidationResult where
  valid : Bool
  groups : List (List Card)
  error : Option String
deriving DecidableEq, Repr

/-- `isValidSet` of `phaseValidation.ts`: zero non-wilds are valid,
otherwise all non-wild values must coincide (`new Set(values)` rendered
with `dedup`). -/
def isValidSet (nonWilds : List Card) (wildCount : Nat) : Bool :=
  if nonWilds.isEmpty then true
  else (nonWilds.map (fun c => c.value)).dedup.length ≤ 1

/-- `isValidRun` of `phaseValidation.ts`.  The source sorts the
non-wild values ascending and reads `min`/`max` off the ends; the
duplicate test `new Set(values).size !== values.length` is rendered
with `dedup`. -/
def isValidRun (nonWilds : List Card) (wildCount : Nat) (targetSize : Nat) : Bool :=
  if nonWilds.isEmpty then true
  else
    let values := (nonWilds.map (fun c => c.value)).mergeSort (fun a b => decide (a ≤ b))
    let minV := values.headD 0
    let maxV := values.getLastD 0
    if values.dedup.length != values.length then false
    else
      let span := maxV - minV + 1
      if span > (targetSize : Int) then false
      else
        let gaps := span - (nonWilds.length : Int)
        let extraNeeded := (targetSize : Int) - span
        decide (gaps ≤ (wildCount : Int)) && decide (0 ≤ extraNeeded) &&
          decide (gaps + extraNeeded ≤ (wildCount : Int))

/-- `isValidColor` of `phaseValidation.ts`. -/
def isValidColor (nonWilds : List Card) (wildCount : Nat) : Bool :=
  if nonWilds.isEmpty then true
  else (nonWilds.map (fun c => c.color)).dedup.length ≤ 1

/-- `isValidGroup` of `phaseValidation.ts`: skip cards are never valid
in any group; otherwise dispatch on the requirement type.  (`wilds`
keeps only wild cards, `nonWilds` drops wilds and skips, exactly as in
the source.) -/
def isValidGroup (cards : List Card) (type : PhaseRequirementType) : Bool :=
  let wilds := cards.filter (fun c => c.isWild)
  let nonWilds := cards.filter (fun c => !c.isWild && !c.isSkip)
  if cards.any (fun c => c.isSkip) then false
  else
    match type with
    | .set => isValidSet nonWilds wilds.length
    | .run => isValidRun nonWilds wilds.length cards.length
    | .color => isValidColor nonWilds wilds.length

/-- `getCombinations` of `phaseValidation.ts`.  The source enumerates
k-element combinations by an index-based backtrack in lexicographic
index order: all combinations containing the first element (extended in
order), then those without it.  This recursion produces the identical
list. -/
def getCombinations : List α → Nat → List (List α)
  | _, 0 => [[]]
  | [], _ + 1 => []
  | x :: xs, k + 1 =>
    (getCombinations xs k).map (fun c => x :: c) ++ getCombinations xs (k + 1)

/-- `findValidGroups` of `phaseValidation.ts`: all size-`size`
combinations passing `isValidGroup`. -/
def findValidGroups (cards : List Card) (type : PhaseRequirementType) (size : Nat) :
    List (List Card) :=
  (getCombinations cards size).filter (fun combo => isValidGroup combo type)

/-- `removeCards` of `phaseValidation.ts`: drop every card whose id
occurs among `toRemove` (the source collects the ids in a `Set` and
filters). -/
def removeCards (cards : List Card) (toRemove : List Card) : List Card :=
  cards.filter (fun c => !(toRemove.any (fun r => r.id == c.id)))

/-- Total surplus quantity of a requirement list; each expansion step
of `tryAssignCards` decreases it by one. -/
def reqMeasure (reqs : List PhaseRequirement) : Nat :=
  (reqs.map (fun r => r.quantity - 1)).sum

/-- Depth budget for the backtracking search.  Every recursive call of
`tryAssignCards` strictly decreases `2 * reqMeasure reqs + reqs.length`
(a quantity expansion lowers `reqMeasure` by one and lengthens the list
by one; consuming a requirement shortens the list and never raises
`reqMeasure`), so this budget is never exhausted when supplied by
`validatePhase`. -/
def searchBudget (reqs : List PhaseRequirement) : Nat :=
  2 * reqMeasure reqs + reqs.length + 1

/-- `tryAssignCards` of `phaseValidation.ts`: recursive backtracking.
A requirement with quantity above one is split into a quantity-one copy
plus the residue; otherwise the first size-`size` valid combination
whose recursive continuation succeeds is committed (the `for … of` loop
returning the first successful recursive result is rendered with
`findSome?`).  The unbounded source recursion carries an explicit depth
budget here; see `searchBudget`. -/
def tryAssignCards (budget : Nat) (remainingCards : List Card)
    (remainingRequirements : List PhaseRequirement)
    (assignedGroups : List (List Card)) : ValidationResult :=
  match budget with
  | 0 => { valid := false, groups := [], error := some "search budget exhausted" }
  | b + 1 =>
    match remainingRequirements with
    | [] => { valid := true, groups := assignedGroups, error := none }
    | currentReq :: otherReqs =>
      if 1 < currentReq.quantity then
        tryAssignCards b remainingCards
          ({ currentReq with quantity := 1 } ::
            { currentReq with quantity := currentReq.quantity - 1 } :: otherReqs)
          assignedGroups
      else
        match (findValidGroups remainingCards currentReq.type currentReq.size).findSome?
            (fun group =>
              let result := tryAssignCards b (removeCards remainingCards group)
                otherReqs (assignedGroups ++ [group])
              if result.valid then some result else none) with
        | some result => result
        | none => { valid := false, groups := [], error := some "cannot satisfy requirement" }

/-- `validatePhase` of `phaseValidation.ts`: reject unless the card
count equals the exact total required, then run the backtracking
search. -/
def validatePhase (cards : List Card) (requirements : List PhaseRequirement) :
    ValidationResult :=
  let totalNeeded := (requirements.map (fun req => req.size * req.quantity)).sum
  if cards.length != totalNeeded then
    { valid := false, groups := [], error := some "wrong number of cards" }
  else
    tryAssignCards (searchBudget requirements) cards requirements []

/-- `canHitOnGroup` of `phaseValidation.ts`. -/
def canHitOnGroup (card : Card) (group : List Card) (type : PhaseRequirementType) : Bool :=
  if card.isSkip then false
  else if card.isWild then true
  else
    let nonWilds := group.filter (fun c => !c.isWild)
    match type with
    | .set =>
      match nonWilds with
      | [] => true
      | c0 :: _ => card.value == c0.value
    | .run =>
      let values := (nonWilds.map (fun c => c.value)).mergeSort (fun a b => decide (a ≤ b))
      if values.isEmpty then true
      else
        let minV := values.headD 0
        let maxV := values.getLastD 0
        let runLength := (group.length : Int)
        let theoreticalMin := maxV - runLength + 1
        let theoreticalMax := minV + runLength - 1
        card.value == theoreticalMin - 1 || card.value == theoreticalMax + 1
    | .color =>
      match nonWilds with
      | [] => true
      | c0 :: _ => card.color == c0.color

/-- `getStandardPhases` of `phaseValidation.ts`. -/
def getStandardPhases : List (List PhaseRequirement) :=
  [ [⟨.set, 3, 2⟩],
    [⟨.set, 3, 1⟩, ⟨.run, 4, 1⟩],
    [⟨.set, 4, 1⟩, ⟨.run, 4, 1⟩],
    [⟨.run, 7, 1⟩],
    [⟨.run, 8, 1⟩],
    [⟨.run, 9, 1⟩],
    [⟨.set, 4, 2⟩],
    [⟨.color, 7, 1⟩],
    [⟨.set, 5, 1⟩, ⟨.set, 2, 1⟩],
    [⟨.set, 5, 1⟩, ⟨.set, 3, 1⟩] ]

/-- The `every((v, i) => i === 0 || v === sorted[i-1] + 1)` test of
`determineGroupType`: adjacent sorted values differ by exactly one. -/
def isSequentialList : List Int → Bool
  | [] => true
  | [_] => true
  | a :: b :: rest => (b == a + 1) && isSequentialList (b :: rest)

/-- `determineGroupType` of `phaseValidation.ts`: infer the type of an
already laid-down group (all-wild ⇒ set; all one value ⇒ set; all one
color ⇒ run if sequential else color; else run when the gaps are
wild-fillable, otherwise undecidable). -/
def determineGroupType (group : List Card) : Option PhaseRequirementType :=
  let nonWilds := group.filter (fun c => !c.isWild && !c.isSkip)
  if nonWilds.isEmpty then some .set
  else
    let values := (nonWilds.map (fun c => c.value)).dedup
    if values.length == 1 then some .set
    else
      let colors := (nonWilds.map (fun c => c.color)).dedup
      if colors.length == 1 then
        let sortedValues :=
          (nonWilds.map (fun c => c.value)).mergeSort (fun a b => decide (a ≤ b))
        if isSequentialList sortedValues then some .run else some .color
      else
        let sortedValues :=
          (nonWilds.map (fun c => c.value)).mergeSort (fun a b => decide (a ≤ b))
        let minVal := sortedValues.headD 0
        let maxVal := sortedValues.getLastD 0
        if maxVal - minVal + 1 == (nonWilds.length : Int) &&
            sortedValues.dedup.length == nonWilds.length then some .run
        else
          let gaps := maxVal - minVal + 1 - (nonWilds.length : Int)
          let wildCount := (group.length : Int) - (nonWilds.length : Int)
          if gaps ≤ wildCount then some .run else none

/-! ### Turn and round state machine (`src/stores/gameStore.ts`)

The store's action handlers interleave pure state arithmetic with
Supabase row updates.  The embedding keeps exactly the pure part: a
`Session` bundles the `games` row fields the engine reads and writes,
the seat-ordered `game_players` rows, and the phase list of the
session's `PhaseSet`; every handler becomes a function from a session
(plus the acting seat and the action parameters) to `Except` of an
error string or the updated session, the error being thrown/`set`
before any row update in the source.  The acting client's
`currentPlayer` is identified by its seat index; the guard
`currentTurnPlayer?.user_id !== currentPlayer.user_id` (which also
fires when `current_player_index` is out of range) becomes the
`requireActiveSeat` check. -/

/-- `TurnPhase` of `src/types/database.ts`. -/
inductive TurnPhase where
  | draw | play | discard
deriving DecidableEq, Repr

/-- `GameStatus` of `src/types/database.ts`. -/
inductive GameStatus where
  | lobby | playing | finished | abandoned
deriving DecidableEq, Repr

/-- The engine-relevant fields of a `game_players` row. -/
structure GamePlayer where
  hand : List Card
  currentPhaseIndex : Nat
  hasLaidDown : Bool
  laidDownCards : List (List Card)
  hits : List Card
  score : Nat
deriving DecidableEq, Repr

/-- The engine-relevant fields of a `games` row. -/
structure Game where
  status : GameStatus
  currentPlayerIndex : Nat
  turnPhase : TurnPhase
  drawPile : List Card
  discardPile : List Card
deriving DecidableEq, Repr

/-- A session snapshot: the `games` row, the players sorted by
`seat_index` (seat i is `players[i]`), and the phase list of the
session's `PhaseSet`. -/
structure Session where
  game : Game
  players : List GamePlayer
  phases : List (List PhaseRequirement)
deriving DecidableEq, Repr

/-- The turn-ownership guard shared by all four actions: the acting
seat must be the seat the sorted player list holds at
`current_player_index`. -/
def requireActiveSeat (sess : Session) (seat : Nat) : Except String GamePlayer :=
  match sess.players[sess.game.currentPlayerIndex]? with
  | none => .error "Not your turn"
  | some activePlayer =>
    if seat == sess.game.currentPlayerIndex then .ok activePlayer
    else .error "Not your turn"

/-- The two `drawCard` sources. -/
inductive DrawSource where
  | pile | discard
deriving DecidableEq, Repr

/-- `drawCard` of `gameStore.ts`.  Piles are stacks with the top at the
list end (`pop`).  Drawing from an empty draw pile reshuffles every
discard card but the top into a fresh draw pile and fails when the
discard pile holds at most one card; the drawn card is appended to the
hand and the turn phase becomes `play`.  The two `pop()!` calls on
provably non-empty piles are rendered as a `getLast?` match whose
`none` branch is unreachable. -/
def drawCardAction (rnd : Nat → Nat) (sess : Session) (seat : Nat) (source : DrawSource) :
    Except String Session := do
  let player ← requireActiveSeat sess seat
  if sess.game.turnPhase != .draw then throw "Already drew this turn"
  else
    match source with
    | .pile =>
      if sess.game.drawPile.isEmpty then
        if sess.game.discardPile.length ≤ 1 then throw "No cards left to draw"
        else
          match sess.game.discardPile.getLast? with
          | none => throw "No cards left to draw"
          | some topDiscard =>
            let newDrawPile := shuffle rnd sess.game.discardPile.dropLast
            match newDrawPile.getLast? with
            | none => throw "No cards left to draw"
            | some card =>
              pure { sess with
                game := { sess.game with
                  drawPile := newDrawPile.dropLast, discardPile := [topDiscard],
                  turnPhase := .play },
                players := sess.players.set seat { player with hand := player.hand ++ [card] } }
      else
        match sess.game.drawPile.getLast? with
        | none => throw "No cards left to draw"
        | some card =>
          pure { sess with
            game := { sess.game with
              drawPile := sess.game.drawPile.dropLast, turnPhase := .play },
            players := sess.players.set seat { player with hand := player.hand ++ [card] } }
    | .discard =>
      match sess.game.discardPile.getLast? with
      | none => throw "Discard pile is empty"
      | some card =>
        pure { sess with
          game := { sess.game with
            discardPile := sess.game.discardPile.dropLast, turnPhase := .play },
          players := sess.players.set seat { player with hand := player.hand ++ [card] } }

/-- `layDownPhase` of `gameStore.ts`: guard turn ownership, `play`
phase, no prior lay-down and a known current phase; flatten the
submitted groups and run the matcher; on success remove each submitted
card id from the hand with `removeCardById`, record the *submitted*
`cardGroups` as `laid_down_cards` and set `has_laid_down`. -/
def layDownPhaseAction (sess : Session) (seat : Nat) (cardGroups : List (List Card)) :
    Except String Session := do
  let player ← requireActiveSeat sess seat
  if sess.game.turnPhase != .play then throw "Cannot lay down during this phase"
  else if player.hasLaidDown then throw "Already laid down this round"
  else
    match sess.phases[player.currentPhaseIndex]? with
    | none => throw "Invalid phase"
    | some requirements =>
      let allCards := cardGroups.flatten
      let result := validatePhase allCards requirements
      if !result.valid then throw "Invalid phase selection"
      else
        let newHand := allCards.foldl (fun h card => (removeCardById h card.id).2) player.hand
        pure { sess with
          players := sess.players.set seat
            { player with hand := newHand, hasLaidDown := true, laidDownCards := cardGroups } }

/-- `hitOnGroup` of `gameStore.ts`: guard turn ownership, `play` phase
and the actor having laid down; the target (referenced by seat) must
have laid down and own the indexed group; the group type is inferred
and the card checked with `canHitOnGroup`; then the card id is removed
from the actor's hand and the card appended to the target group.  The
two row updates are applied in source order, so a self-hit receives
both. -/
def hitOnGroupAction (sess : Session) (seat : Nat) (targetSeat : Nat) (groupIndex : Nat)
    (card : Card) : Except String Session := do
  let player ← requireActiveSeat sess seat
  if sess.game.turnPhase != .play then throw "Cannot hit during this phase"
  else if !player.hasLaidDown then throw "Must lay down phase first"
  else
    match sess.players[targetSeat]? with
    | none => throw "Invalid target player"
    | some targetPlayer =>
      if !targetPlayer.hasLaidDown then throw "Invalid target player"
      else
        match targetPlayer.laidDownCards[groupIndex]? with
        | none => throw "Invalid group"
        | some targetGroup =>
          match determineGroupType targetGroup with
          | none => throw "Card cannot be added to this group"
          | some groupType =>
            if !canHitOnGroup card targetGroup groupType then
              throw "Card cannot be added to this group"
            else
              let newHand := (removeCardById player.hand card.id).2
              let newLaidDownCards :=
                targetPlayer.laidDownCards.set groupIndex (targetGroup ++ [card])
              let afterHand := sess.players.set seat { player with hand := newHand }
              match afterHand[targetSeat]? with
              | none => throw "Invalid target player"
              | some targetRow =>
                pure { sess with
                  players := afterHand.set targetSeat
                    { targetRow with laidDownCards := newLaidDownCards } }

/-- The per-player scoring loop of `handleRoundEnd`: every player adds
`calculateHandScore` of the hand snapshot it was called with to its
score, advances its phase index exactly when it had laid down, and has
hand/flags/groups/hits reset. -/
def scorePlayers (players : List GamePlayer) : List GamePlayer :=
  players.map (fun player =>
    { player with
      score := player.score + calculateHandScore player.hand,
      currentPhaseIndex :=
        if player.hasLaidDown then player.currentPhaseIndex + 1
        else player.currentPhaseIndex,
      hand := [], hasLaidDown := false, laidDownCards := [], hits := [] })

/-- The winner test of `handleRoundEnd`, evaluated on the *pre-scoring*
player snapshots (the local array is not mutated by the row updates):
some player laid down and its advanced phase index reaches the phase
count. -/
def findGameWinner (players : List GamePlayer) (maxPhase : Nat) : Option GamePlayer :=
  players.find? (fun p => p.hasLaidDown && decide (maxPhase ≤ p.currentPhaseIndex + 1))

/-- `handleRoundEnd` of `gameStore.ts`.  Scores every player from the
snapshot it receives, then either finishes the game (the `games` row
keeps its piles, index and turn phase) or deals a new round: fresh
`setupGame` piles, hand `i` to seat `i`, active seat 0 in `draw`.  The
`finalDiscardPile` parameter is accepted and, as in the source, never
used.  A fresh id stream and index stream feed the new round's deck. -/
def handleRoundEnd (idsNew : Nat → Nat) (rndNew : Nat → Nat) (sess : Session)
    (finalDiscardPile : List Card) : Except String Session :=
  let scored := scorePlayers sess.players
  let maxPhase := sess.phases.length
  match findGameWinner sess.players maxPhase with
  | some _ =>
    .ok { sess with players := scored, game := { sess.game with status := .finished } }
  | none =>
    match setupGame idsNew rndNew sess.players.length with
    | none => .error "setup failed"
    | some (hands, drawPile, discardPile) =>
      .ok { sess with
        players := List.zipWith (fun p h => { p with hand := h }) scored hands,
        game := { sess.game with
          drawPile := drawPile, discardPile := discardPile,
          currentPlayerIndex := 0, turnPhase := .draw } }

/-- `discardCard` of `gameStore.ts`: guard turn ownership and `play`
phase; remove the card from the hand (failing when absent); append it
to the discard pile; when the hand empties hand control to
`handleRoundEnd` (passing the *original* player snapshots), otherwise
advance `(index + 1) % seats`, one seat further when the discarded card
is a skip, and reset the turn phase to `draw`. -/
def discardCardAction (idsNew : Nat → Nat) (rndNew : Nat → Nat) (sess : Session)
    (seat : Nat) (card : Card) : Except String Session := do
  let player ← requireActiveSeat sess seat
  if sess.game.turnPhase != .play then throw "Must draw first"
  else
    match removeCardById player.hand card.id with
    | (none, _) => throw "Card not in hand"
    | (some removedCard, newHand) =>
      let newDiscardPile := sess.game.discardPile ++ [removedCard]
      let isRoundOver := newHand.isEmpty
      let nextPlayerIndex := (sess.game.currentPlayerIndex + 1) % sess.players.length
      let actualNextIndex :=
        if card.isSkip then (nextPlayerIndex + 1) % sess.players.length
        else nextPlayerIndex
      if isRoundOver then handleRoundEnd idsNew rndNew sess newDiscardPile
      else
        pure { sess with
          game := { sess.game with
            discardPile := newDiscardPile, currentPlayerIndex := actualNextIndex,
            turnPhase := .draw },
          players := sess.players.set seat { player with hand := newHand } }

/-- The initial playing session: `startGame` runs `setupGame` and the
`start_game` RPC (migration `20260117120000_fix_game_policies.sql`)
deals hand `i` to seat `i` and sets status `playing`, active seat 0,
turn phase `draw`, with the freshly dealt piles. -/
def mkInitialSession (ids : Nat → Nat) (rnd : Nat → Nat) (playerCount : Nat) :
    Option Session :=
  (setupGame ids rnd playerCount).map (fun t =>
    { game := { status := .playing, currentPlayerIndex := 0, turnPhase := .draw,
                drawPile := t.2.1, discardPile := t.2.2 },
      players := t.1.map (fun h =>
        { hand := h, currentPhaseIndex := 0, hasLaidDown := false,
          laidDownCards := [], hits := [], score := 0 }),
      phases := getStandardPhases })

/-- Every card location of a session: draw pile, discard pile, and for
each seat the hand, the laid-down groups and the hit cards. -/
def sessionCards (sess : Session) : List Card :=
  sess.game.drawPile ++ sess.game.discardPile ++
    sess.players.flatMap (fun p => p.hand ++ p.laidDownCards.flatten ++ p.hits)

/-! ### Reference definitions and concrete scenario states -/

/-- A card without its id; the deck composition is independent of the
id stream. -/
def stripId (c : Card) : CardColor × Int × Bool × Bool :=
  (c.color, c.value, c.isWild, c.isSkip)

/-- The characterization claimed for `isValidGroup(cards, run)`: after
removing wilds, the remaining ranks are pairwise distinct,
`(max - min + 1) ≤ size` and `wildCount ≥ (max - min + 1) - nonWildCount`,
with the group size being the card count as in the code.  A card list
with no non-wilds is taken as trivially satisfying the rank conditions,
matching the code's all-wild case. -/
def runSpecHolds (cards : List Card) : Prop :=
  cards.filter (fun c => !c.isWild) = [] ∨
    (((cards.filter (fun c => !c.isWild)).map (fun c => c.value)).Nodup ∧
     ((cards.filter (fun c => !c.isWild)).map (fun c => c.value)).max?.getD 0 -
       ((cards.filter (fun c => !c.isWild)).map (fun c => c.value)).min?.getD 0 + 1 ≤
       (cards.length : Int) ∧
     ((cards.filter (fun c => !c.isWild)).map (fun c => c.value)).max?.getD 0 -
       ((cards.filter (fun c => !c.isWild)).map (fun c => c.value)).min?.getD 0 + 1 -
       ((cards.filter (fun c => !c.isWild)).length : Int) ≤
       ((cards.filter (fun c => c.isWild)).length : Int))

/-- All ways to choose `n` elements from a list (as an order-preserving
subsequence), each paired with the unchosen remainder in order. -/
def picks {α : Type _} : Nat → List α → List (List α × List α)
  | 0, l => [([], l)]
  | _ + 1, [] => []
  | n + 1, x :: xs =>
    ((picks n xs).map (fun p => (x :: p.1, p.2))) ++
      ((picks (n + 1) xs).map (fun p => (p.1, x :: p.2)))

/-- Expand a requirement list into one (type, size) entry per needed
group — `quantity` entries per requirement — following the spec's
reading of quantity as how many independent groups of this type and
size are needed. -/
def expandReqs : List PhaseRequirement → List (PhaseRequirementType × Nat)
  | [] => []
  | r :: rest => List.replicate r.quantity (r.type, r.size) ++ expandReqs rest

/-- Independent brute-force reference search following the spec: search
over all partitions of the cards into disjoint groups, one per expanded
requirement in order, for an assignment in which every group satisfies
its requirement; every card must be used. -/
def bruteForcePhase : List Card → List (PhaseRequirementType × Nat) → Bool
  | cards, [] => cards.isEmpty
  | cards, (t, n) :: rest =>
    (picks n cards).any (fun p => isValidGroup p.1 t && bruteForcePhase p.2 rest)

/-- A joined player row before any action, as `createGame`/`joinGame`
insert it. -/
def blankPlayer : GamePlayer :=
  { hand := [], currentPhaseIndex := 0, hasLaidDown := false,
    laidDownCards := [], hits := [], score := 0 }

/-- A skip card and a numbered card for the concrete scenarios. -/
def skipCardA : Card := ⟨10, CardColor.red, -1, false, true⟩

def fiveCardA : Card := ⟨11, CardColor.red, 5, false, false⟩

/-- Three-seat mid-round session, seat 0 active in the play phase and
holding a skip card plus one other card. -/
def sessC7 : Session :=
  { game := { status := .playing, currentPlayerIndex := 0, turnPhase := .play,
              drawPile := [], discardPile := [] },
    players := [ { blankPlayer with hand := [skipCardA, fiveCardA] },
                 blankPlayer, blankPlayer ],
    phases := getStandardPhases }

/-- Two-seat session at the draw phase with an empty draw pile and a
five-card discard pile, matching the spec's reshuffle scenario. -/
def sessC6 : Session :=
  { game := { status := .playing, currentPlayerIndex := 0, turnPhase := .draw,
              drawPile := [],
              discardPile := [⟨20, CardColor.red, 1, false, false⟩,
                ⟨21, CardColor.blue, 2, false, false⟩, ⟨22, CardColor.green, 3, false, false⟩,
                ⟨23, CardColor.yellow, 4, false, false⟩, ⟨24, CardColor.red, 6, false, false⟩] },
    players := [ { blankPlayer with hand := [fiveCardA] }, blankPlayer ],
    phases := getStandardPhases }

/-- Two-seat session where the active seat holds only a skip card and
has laid down this round (phase index 0, so there is no match winner);
discarding the skip ends the round. -/
def sessC10 : Session :=
  { game := { status := .playing, currentPlayerIndex := 0, turnPhase := .play,
              drawPile := [], discardPile := [] },
    players := [ { blankPlayer with hand := [skipCardA], hasLaidDown := true },
                 { blankPlayer with hand := [fiveCardA] } ],
    phases := getStandardPhases }

/-- Cards for the two-triples scenario: three of rank 1 and three of
rank 2. -/
def cardR1 : Card := ⟨1, CardColor.red, 1, false, false⟩

def cardB1 : Card := ⟨2, CardColor.blue, 1, false, false⟩

def cardG1 : Card := ⟨3, CardColor.green, 1, false, false⟩

def cardR2 : Card := ⟨4, CardColor.red, 2, false, false⟩

def cardB2 : Card := ⟨5, CardColor.blue, 2, false, false⟩

def cardG2 : Card := ⟨6, CardColor.green, 2, false, false⟩

/-- Seat-0 player for the lay-down scenarios: holds exactly the two
rank-triples and has not laid down. -/
def playerC2 : GamePlayer :=
  { blankPlayer with hand := [cardR1, cardB1, cardG1, cardR2, cardB2, cardG2] }

/-- Two-seat session at the play phase; seat 0 is on phase 1 (two sets
of three). -/
def sessC2 : Session :=
  { game := { status := .playing, currentPlayerIndex := 0, turnPhase := .play,
              drawPile := [], discardPile := [] },
    players := [playerC2, blankPlayer],
    phases := getStandardPhases }

/-- A red 5 held (and finally discarded) by seat A. -/
def fiveC3 : Card := ⟨1, CardColor.red, 5, false, false⟩

/-- A wild card held by seat B. -/
def wildC3 : Card := ⟨2, CardColor.red, 0, true, false⟩

/-- A skip card held by seat B. -/
def skipC3 : Card := ⟨3, CardColor.red, -1, false, true⟩

/-- The C3 scenario: seat A has laid down and holds one last 5; seat B
holds one wild and one skip.  Seat A is about to discard its last
card. -/
def sessC3 : Session :=
  { game := { status := .playing, currentPlayerIndex := 0, turnPhase := .play,
              drawPile := [], discardPile := [] },
    players := [ { blankPlayer with hand := [fiveC3], hasLaidDown := true },
                 { blankPlayer with hand := [wildC3, skipC3] } ],
    phases := getStandardPhases }

/-- A freshly started two-player session (deterministic id and shuffle
streams). -/
def demoStart : Option Session := mkInitialSession (fun k => k) (fun _ => 0) 2

/-- The session after seat 0 draws from the pile. -/
def demoAfterDraw : Option Session :=
  demoStart.bind (fun s => (drawCardAction (fun _ => 0) s 0 .pile).toOption)

/-- Six forged cards — two rank-triples with ids no deck card carries —
submitted as phase groups without ever being in any hand. -/
def forgedGroups : List (List Card) :=
  [[⟨900, CardColor.red, 7, false, false⟩, ⟨901, CardColor.blue, 7, false, false⟩,
    ⟨902, CardColor.green, 7, false, false⟩],
   [⟨903, CardColor.red, 9, false, false⟩, ⟨904, CardColor.blue, 9, false, false⟩,
    ⟨905, CardColor.green, 9, false, false⟩]]

/-- The session after seat 0 lays down the forged groups. -/
def demoAfterLay : Option Session :=
  demoAfterDraw.bind (fun s => (layDownPhaseAction s 0 forgedGroups).toOption)

/-! ### Permutation facts about the shuffle -/

theorem cons_set_perm {α : Type _} :
    ∀ (xs : List α) (j : Nat) (a b : α), xs[j]? = some b →
      (b :: xs.set j a).Perm (a :: xs) := by
  intro xs
  induction xs with
  | nil => intro j a b h; simp at h
  | cons x t ih =>
    intro j a b h
    cases j with
    | zero =>
      rw [List.getElem?_cons_zero, Option.some_inj] at h
      rw [List.set_cons_zero, ← h]
      exact List.Perm.swap a x t
    | succ j =>
      rw [List.getElem?_cons_succ] at h
      have step := ih j a b h
      have h1 : (b :: (x :: t).set (j + 1) a) = b :: x :: t.set j a := by
        rw [List.set_cons_succ]
      rw [h1]
      have h2 : (b :: x :: t.set j a).Perm (x :: b :: t.set j a) := List.Perm.swap x b _
      have h3 : (x :: b :: t.set j a).Perm (x :: a :: t) := step.cons x
      have h4 : (x :: a :: t).Perm (a :: x :: t) := List.Perm.swap a x t
      exact (h2.trans h3).trans h4

theorem set_set_swap_perm {α : Type _} :
    ∀ (l : List α) (i j : Nat) (a b : α), l[i]? = some a → l[j]? = some b →
      ((l.set i b).set j a).Perm l := by
  intro l
  induction l with
  | nil => intro i j a b hi; simp at hi
  | cons x t ih =>
    intro i j a b hi hj
    cases i with
    | zero =>
      rw [List.getElem?_cons_zero, Option.some_inj] at hi
      cases j with
      | zero =>
        rw [List.getElem?_cons_zero, Option.some_inj] at hj
        rw [List.set_cons_zero, List.set_cons_zero, ← hi]
      | succ j =>
        rw [List.getElem?_cons_succ] at hj
        rw [List.set_cons_zero, List.set_cons_succ, hi]
        exact cons_set_perm t j a b hj
    | succ i =>
      rw [List.getElem?_cons_succ] at hi
      cases j with
      | zero =>
        rw [List.getElem?_cons_zero, Option.some_inj] at hj
        rw [List.set_cons_succ, List.set_cons_zero, hj]
        exact cons_set_perm t i b a hi
      | succ j =>
        rw [List.getElem?_cons_succ] at hj
        have step := ih i j a b hi hj
        rw [List.set_cons_succ, List.set_cons_succ]
        exact step.cons x

theorem listSwap_perm {α : Type _} (l : List α) (i j : Nat) :
    (listSwap l i j).Perm l := by
  unfold listSwap
  cases hi : l[i]? with
  | none => cases l[j]? <;> exact List.Perm.refl l
  | some a =>
    cases hj : l[j]? with
    | none => exact List.Perm.refl l
    | some b => exact set_set_swap_perm l i j a b hi hj

theorem shuffleGo_perm {α : Type _} (rnd : Nat → Nat) :
    ∀ (n : Nat) (l : List α), (shuffleGo rnd n l).Perm l := by
  intro n
  induction n with
  | zero => intro l; exact List.Perm.refl l
  | succ n ih =>
    intro l
    exact (ih _).trans (listSwap_perm l (n + 1) (rnd (n + 1) % (n + 2)))

theorem shuffle_perm {α : Type _} (rnd : Nat → Nat) (l : List α) :
    (shuffle rnd l).Perm l :=
  shuffleGo_perm rnd (l.length - 1) l

theorem shuffle_length {α : Type _} (rnd : Nat → Nat) (l : List α) :
    (shuffle rnd l).length = l.length :=
  (shuffle_perm rnd l).length_eq

/-! ### General list lemmas -/

theorem dedup_length_eq_iff {α : Type _} [DecidableEq α] (l : List α) :
    l.dedup.length = l.length ↔ l.Nodup := by
  constructor
  · intro h
    have heq := (List.dedup_sublist l).eq_of_length h
    rw [← heq]
    exact List.nodup_dedup l
  · intro h
    rw [List.dedup_eq_self.mpr h]

theorem sorted_head_le {α : Type _} [Preorder α] (S : List α) (h : S ≠ [])
    (hs : List.Sorted (· ≤ ·) S) : ∀ b ∈ S, S.head h ≤ b := by
  match S with
  | x :: t =>
    intro b hb
    rw [List.head_cons]
    rcases List.mem_cons.mp hb with rfl | hb
    · exact le_refl b
    · exact List.rel_of_pairwise_cons hs hb

theorem sorted_le_getLast {α : Type _} [Preorder α] :
    ∀ (S : List α) (h : S ≠ []), List.Sorted (· ≤ ·) S → ∀ b ∈ S, b ≤ S.getLast h := by
  intro S
  induction S with
  | nil => intro h; exact absurd rfl h
  | cons x t ih =>
    intro h hs b hb
    match t, hb with
    | [], hb =>
      rcases List.mem_cons.mp hb with rfl | hb
      · exact le_refl b
      · simp at hb
    | y :: t, hb =>
      rw [List.getLast_cons (by simp)]
      rcases List.mem_cons.mp hb with rfl | hb
      · exact List.rel_of_pairwise_cons hs (List.getLast_mem _)
      · exact ih (by simp) hs.of_cons b hb

/-- The ascending sort of a non-empty list of integers starts at its
minimum. -/
theorem min?_eq_sortHead (l : List Int) (h : l ≠ []) :
    l.min? = some ((l.mergeSort (fun a b => decide (a ≤ b))).headD 0) := by
  have hperm := List.mergeSort_perm l (fun a b => decide (a ≤ b))
  have hsorted := List.sorted_mergeSort' l
  have hne : l.mergeSort (fun a b => decide (a ≤ b)) ≠ [] := by
    intro hnil
    exact h (List.Perm.eq_nil (hnil ▸ hperm.symm))
  rw [List.headD_eq_head?, List.head?_eq_head hne, Option.getD_some]
  haveI : Std.Antisymm (fun (x1 x2 : Int) => x1 ≤ x2) := ⟨fun h1 h2 => le_antisymm h1 h2⟩
  rw [List.min?_eq_some_iff (fun a => le_refl a) (fun a b => min_choice a b)
    (fun a b c => le_min_iff)]
  constructor
  · exact hperm.mem_iff.mp (List.head_mem hne)
  · intro b hb
    exact sorted_head_le _ hne hsorted b (hperm.mem_iff.mpr hb)

/-- The ascending sort of a non-empty list of integers ends at its
maximum. -/
theorem max?_eq_sortLast (l : List Int) (h : l ≠ []) :
    l.max? = some ((l.mergeSort (fun a b => decide (a ≤ b))).getLastD 0) := by
  have hperm := List.mergeSort_perm l (fun a b => decide (a ≤ b))
  have hsorted := List.sorted_mergeSort' l
  have hne : l.mergeSort (fun a b => decide (a ≤ b)) ≠ [] := by
    intro hnil
    exact h (List.Perm.eq_nil (hnil ▸ hperm.symm))
  rw [List.getLastD_eq_getLast?, List.getLast?_eq_getLast _ hne, Option.getD_some]
  haveI : Std.Antisymm (fun (x1 x2 : Int) => x1 ≤ x2) := ⟨fun h1 h2 => le_antisymm h1 h2⟩
  rw [List.max?_eq_some_iff (fun a => le_refl a) (fun a b => max_choice a b)
    (fun a b c => max_le_iff)]
  constructor
  · exact hperm.mem_iff.mp (List.getLast_mem hne)
  · intro b hb
    exact sorted_le_getLast _ hne hsorted b (hperm.mem_iff.mpr hb)

/-! ### `removeCardById` characterization -/

theorem removeCardById_eq (cards : List Card) (cardId : Nat) :
    removeCardById cards cardId =
      (cards.find? (fun c => c.id == cardId), cards.eraseP (fun c => c.id == cardId)) := by
  induction cards with
  | nil => rfl
  | cons x xs ih =>
    have hfst := congrArg Prod.fst ih
    have hsnd := congrArg Prod.snd ih
    simp only at hfst hsnd
    unfold removeCardById
    rw [List.findIdx?_cons]
    by_cases hx : (x.id == cardId) = true
    · simp [hx, List.eraseP_cons, List.find?_cons]
    · have hxf : (x.id == cardId) = false := by simpa using hx
      rw [if_neg hx, List.findIdx?_succ]
      unfold removeCardById at hfst hsnd
      cases hidx : List.findIdx? (fun card => card.id == cardId) xs with
      | none =>
        rw [hidx] at hfst hsnd
        simp only at hfst hsnd
        simp [hxf, List.eraseP_cons, List.find?_cons, ← hfst, ← hsnd]
      | some i =>
        rw [hidx] at hfst hsnd
        simp only at hfst hsnd
        simp [hxf, List.eraseP_cons, List.find?_cons, ← hfst, ← hsnd]

/-! ### Deck composition lemmas -/

theorem createDeck_length (ids : Nat → Nat) : (createDeck ids).length = 108 := by
  simp [createDeck]

theorem createDeck_map_stripId (ids : Nat → Nat) :
    (createDeck ids).map stripId = (createDeck (fun _ => 0)).map stripId := by
  simp only [createDeck, List.map_append, List.map_map]
  rfl

theorem createDeck_countP_wild (ids : Nat → Nat) :
    (createDeck ids).countP (fun c => c.isWild) = 8 := by
  have h : (createDeck ids).countP (fun c => c.isWild)
      = List.countP (fun t => t.2.2.1) ((createDeck ids).map stripId) := by
    rw [List.countP_map]
    rfl
  rw [h, createDeck_map_stripId]
  decide

theorem createDeck_countP_skip (ids : Nat → Nat) :
    (createDeck ids).countP (fun c => c.isSkip) = 4 := by
  have h : (createDeck ids).countP (fun c => c.isSkip)
      = List.countP (fun t => t.2.2.2) ((createDeck ids).map stripId) := by
    rw [List.countP_map]
    rfl
  rw [h, createDeck_map_stripId]
  decide

theorem createDeck_count_number (ids : Nat → Nat) (col : CardColor) (v : Int)
    (hv : v ∈ VALUES) :
    (createDeck ids).countP
      (fun c => !c.isWild && !c.isSkip && c.color == col && c.value == v) = 2 := by
  have h : (createDeck ids).countP
        (fun c => !c.isWild && !c.isSkip && c.color == col && c.value == v)
      = List.countP (fun t => !t.2.2.1 && !t.2.2.2 && t.1 == col && t.2.1 == v)
          ((createDeck ids).map stripId) := by
    rw [List.countP_map]
    rfl
  rw [h, createDeck_map_stripId]
  cases col <;> fin_cases hv <;> decide

set_option maxRecDepth 4000 in
theorem createDeck_map_id (ids : Nat → Nat) :
    (createDeck ids).map (fun c => c.id) = (List.range 108).map ids := by
  rfl

theorem createDeck_nodup_ids (ids : Nat → Nat)
    (hinj : ∀ i < 108, ∀ j < 108, ids i = ids j → i = j) :
    ((createDeck ids).map (fun c => c.id)).Nodup := by
  rw [createDeck_map_id]
  refine List.Nodup.map_on ?_ (List.nodup_range 108)
  intro x hx y hy hxy
  exact hinj x (List.mem_range.mp hx) y (List.mem_range.mp hy) hxy

/-! ### Round setup lemmas -/

theorem dealHands_snd (k : Nat) :
    ∀ (n : Nat) (deck : List Card), (dealHands deck n k).2 = deck.drop (n * k) := by
  intro n
  induction n with
  | zero => intro deck; simp [dealHands]
  | succ n ih =>
    intro deck
    simp only [dealHands, dealCards]
    rw [ih, List.drop_drop]
    congr 1
    ring

theorem dealHands_fst_length (k : Nat) :
    ∀ (n : Nat) (deck : List Card), (dealHands deck n k).1.length = n := by
  intro n
  induction n with
  | zero => intro deck; simp [dealHands]
  | succ n ih => intro deck; simp [dealHands, dealCards, ih]

/-- The flip loop run on a pile made of a block of skip cards followed
by a non-skip card: every leading skip moves to the bottom and the
non-skip card becomes the one-card discard pile. -/
theorem flipLoop_spec :
    ∀ (skips : List Card) (c : Card) (rest : List Card) (budget : Nat),
      (∀ s ∈ skips, s.isSkip = true) → c.isSkip = false → skips.length < budget →
      flipLoop budget (skips ++ c :: rest) = some (rest ++ skips, [c]) := by
  intro skips
  induction skips with
  | nil =>
    intro c rest budget _ hc hb
    match budget, hb with
    | b + 1, _ => simp [flipLoop, hc]
  | cons s t ih =>
    intro c rest budget hsk hc hb
    match budget, hb with
    | b + 1, hb =>
      have hs : s.isSkip = true := hsk s (by simp)
      have hsk2 : ∀ x ∈ t, x.isSkip = true :=
        fun x hx => hsk x (List.mem_cons_of_mem s hx)
      have hlen2 : t.length < b := by
        have := Nat.lt_of_succ_lt_succ (by simpa using hb)
        exact this
      rw [List.cons_append]
      have hstep : flipLoop (b + 1) (s :: (t ++ c :: rest)) =
          flipLoop b ((t ++ c :: rest) ++ [s]) := by
        simp [flipLoop, hs]
      rw [hstep, List.append_assoc, List.cons_append]
      rw [ih c (rest ++ [s]) b hsk2 hc hlen2]
      simp

/-- C8: for every player count from 2 to 6, `setupGame` terminates:
the discard-flip loop (run with the pile length as iteration budget,
which the proof shows is never exhausted) reaches a non-skip card, and
the returned initial discard pile is exactly that one non-skip card. -/
theorem claim_C8 (ids rnd : Nat → Nat) (playerCount : Nat)
    (h2 : 2 ≤ playerCount) (h6 : playerCount ≤ 6) :
    ∃ hands drawPile c, setupGame ids rnd playerCount = some (hands, drawPile, [c]) ∧
      c.isSkip = false := by
  have hperm : (createShuffledDeck ids rnd).Perm (createDeck ids) :=
    shuffle_perm rnd (createDeck ids)
  have hlen : (createShuffledDeck ids rnd).length = 108 := by
    rw [hperm.length_eq, createDeck_length]
  have hskips : (createShuffledDeck ids rnd).countP (fun c => c.isSkip) = 4 := by
    rw [hperm.countP_eq, createDeck_countP_skip]
  set remaining := (dealHands (createShuffledDeck ids rnd) playerCount 10).2 with hrem
  have hdrop : remaining = (createShuffledDeck ids rnd).drop (playerCount * 10) :=
    dealHands_snd 10 playerCount _
  have hremlen : remaining.length = 108 - playerCount * 10 := by
    rw [hdrop, List.length_drop, hlen]
  have hrem_sub : remaining.Sublist (createShuffledDeck ids rnd) := by
    rw [hdrop]; exact List.drop_sublist _ _
  have hskiprem : remaining.countP (fun c => c.isSkip) ≤ 4 :=
    hskips ▸ hrem_sub.countP_le _
  have hx : ∃ x ∈ remaining, x.isSkip = false := by
    by_contra hno
    push_neg at hno
    have : remaining.countP (fun c => c.isSkip) = remaining.length :=
      List.countP_eq_length.mpr (fun a ha => by
        have := hno a ha
        simpa using this)
    omega
  have hD : remaining.dropWhile (fun c => c.isSkip) ≠ [] := by
    intro hnil
    obtain ⟨x, hxmem, hxns⟩ := hx
    have hsplit := List.takeWhile_append_dropWhile (fun c => c.isSkip) remaining
    rw [hnil, List.append_nil] at hsplit
    rw [← hsplit] at hxmem
    have := List.mem_takeWhile_imp hxmem
    rw [hxns] at this
    exact Bool.false_ne_true this
  set c := (remaining.dropWhile (fun c => c.isSkip)).head hD with hcdef
  have hcns : c.isSkip = false := List.head_dropWhile_not _ remaining hD
  have hdecomp : remaining = remaining.takeWhile (fun c => c.isSkip) ++
      c :: (remaining.dropWhile (fun c => c.isSkip)).tail := by
    conv_lhs => rw [← List.takeWhile_append_dropWhile (fun c => c.isSkip) remaining]
    exact congrArg (fun z => remaining.takeWhile (fun c => c.isSkip) ++ z)
      (List.head_cons_tail _ hD).symm
  have htakeskip : ∀ s ∈ remaining.takeWhile (fun c => c.isSkip), s.isSkip = true :=
    fun s hs => List.mem_takeWhile_imp hs
  have hflip2 : flipLoop remaining.length remaining =
      some ((remaining.dropWhile (fun c => c.isSkip)).tail ++
        remaining.takeWhile (fun c => c.isSkip), [c]) := by
    conv_lhs => rw [hdecomp]
    refine flipLoop_spec _ _ _ _ htakeskip hcns ?_
    rw [List.length_append, List.length_cons]
    omega
  refine ⟨(dealHands (createShuffledDeck ids rnd) playerCount 10).1,
    (remaining.dropWhile (fun c => c.isSkip)).tail ++
      remaining.takeWhile (fun c => c.isSkip), c, ?_, hcns⟩
  show (flipLoop remaining.length remaining).map
      (fun p => ((dealHands (createShuffledDeck ids rnd) playerCount 10).1, p.1, p.2)) = _
  rw [hflip2]
  rfl

/-- Witness for C8 at player count 3 with concrete streams. -/
theorem claim_C8_witness :
    (2 ≤ 3 ∧ 3 ≤ 6) ∧
    (∃ hands drawPile c, setupGame (fun k => k) (fun _ => 0) 3 = some (hands, drawPile, [c]) ∧
      c.isSkip = false) :=
  ⟨⟨by decide, by decide⟩, claim_C8 (fun k => k) (fun _ => 0) 3 (by decide) (by decide)⟩

set_option maxRecDepth 4000 in
theorem createDeck_countP_number_total (ids : Nat → Nat) :
    (createDeck ids).countP (fun c => !c.isWild && !c.isSkip) = 96 := by
  have h : (createDeck ids).countP (fun c => !c.isWild && !c.isSkip)
      = List.countP (fun t => !t.2.2.1 && !t.2.2.2) ((createDeck ids).map stripId) := by
    rw [List.countP_map]
    rfl
  rw [h, createDeck_map_stripId]
  decide

/-- C9 (amended): every `createDeck` call returns exactly 108 cards,
96 of them numbered with each of the 4 colors and 12 ranks appearing
exactly twice, 8 wild and 4 skip; the 108 card ids are pairwise
distinct provided the id generator produced pairwise distinct ids on
its 108 calls (which `Math.random`-based ids do not guarantee, see the
counterexample). -/
theorem claim_C9 (ids : Nat → Nat) :
    (createDeck ids).length = 108 ∧
    ((createDeck ids).filter (fun c => c.isWild)).length = 8 ∧
    ((createDeck ids).filter (fun c => c.isSkip)).length = 4 ∧
    ((createDeck ids).filter (fun c => !c.isWild && !c.isSkip)).length = 96 ∧
    (∀ col : CardColor, ∀ v ∈ VALUES,
      ((createDeck ids).filter
        (fun c => !c.isWild && !c.isSkip && c.color == col && c.value == v)).length = 2) ∧
    ((∀ i < 108, ∀ j < 108, ids i = ids j → i = j) →
      ((createDeck ids).map (fun c => c.id)).Nodup) := by
  refine ⟨createDeck_length ids, ?_, ?_, ?_, ?_, fun hinj => createDeck_nodup_ids ids hinj⟩
  · rw [← List.countP_eq_length_filter]
    exact createDeck_countP_wild ids
  · rw [← List.countP_eq_length_filter]
    exact createDeck_countP_skip ids
  · rw [← List.countP_eq_length_filter]
    exact createDeck_countP_number_total ids
  · intro col v hv
    rw [← List.countP_eq_length_filter]
    exact createDeck_count_number ids col v hv

/-- Witness for C9 with the identity id stream (injective, so all ids
are distinct). -/
theorem claim_C9_witness :
    ((createDeck (fun k => k)).map (fun c => c.id)).Nodup ∧
    ((createDeck (fun k => k)).filter
      (fun c => !c.isWild && !c.isSkip && c.color == CardColor.red && c.value == 1)).length
      = 2 :=
  ⟨(claim_C9 (fun k => k)).2.2.2.2.2 (fun i _ j _ h => h),
    (claim_C9 (fun k => k)).2.2.2.2.1 CardColor.red 1 (by decide)⟩

set_option maxRecDepth 4000 in
/-- C9 counterexample: `generateCardId` draws from `Math.random`,
which may repeat; with a constant stream the deck still has 108 cards
but its ids are not pairwise distinct, refuting the unconditional
distinctness claim. -/
theorem claim_C9_counterexample :
    (createDeck (fun _ => 0)).length = 108 ∧
    ¬ ((createDeck (fun _ => 0)).map (fun c => c.id)).Nodup := by
  constructor
  · decide
  · decide

/-! ### C5: the run-group characterization -/

/-- Exact characterization of `isValidRun`: beyond the claimed
conditions it also requires `targetSize - nonWildCount ≤ wildCount`
(the code's `gaps + extraNeeded ≤ wildCount`), which is only implied
when the target size equals non-wild count plus wild count. -/
theorem isValidRun_iff (nonWilds : List Card) (wildCount targetSize : Nat) :
    isValidRun nonWilds wildCount targetSize = true ↔
      (nonWilds = [] ∨
        ((nonWilds.map (fun c => c.value)).Nodup ∧
         (nonWilds.map (fun c => c.value)).max?.getD 0 -
           (nonWilds.map (fun c => c.value)).min?.getD 0 + 1 ≤ (targetSize : Int) ∧
         (nonWilds.map (fun c => c.value)).max?.getD 0 -
           (nonWilds.map (fun c => c.value)).min?.getD 0 + 1 -
           (nonWilds.length : Int) ≤ (wildCount : Int) ∧
         (targetSize : Int) - (nonWilds.length : Int) ≤ (wildCount : Int))) := by
  by_cases hemp : nonWilds = []
  · subst hemp
    simp [isValidRun]
  · have hempb : nonWilds.isEmpty = false := by
      cases nonWilds with
      | nil => exact absurd rfl hemp
      | cons a t => rfl
    have hrne : (nonWilds.map (fun c => c.value)) ≠ [] := by
      simpa using hemp
    have hmin := min?_eq_sortHead _ hrne
    have hmax := max?_eq_sortLast _ hrne
    rw [or_iff_right hemp]
    rw [hmin, hmax]
    simp only [Option.getD_some]
    unfold isValidRun
    rw [hempb]
    simp only [Bool.false_eq_true, if_false]
    have hvperm := List.mergeSort_perm (nonWilds.map (fun c => c.value))
      (fun a b => decide (a ≤ b))
    have hnodupiff :
        (((nonWilds.map (fun c => c.value)).mergeSort
            (fun a b => decide (a ≤ b))).dedup.length =
          ((nonWilds.map (fun c => c.value)).mergeSort
            (fun a b => decide (a ≤ b))).length) ↔
          (nonWilds.map (fun c => c.value)).Nodup := by
      rw [dedup_length_eq_iff]
      exact hvperm.nodup_iff
    have hlennw : ((nonWilds.map (fun c => c.value)).mergeSort
        (fun a b => decide (a ≤ b))).length = nonWilds.length := by
      rw [hvperm.length_eq, List.length_map]
    by_cases hdup :
        ((nonWilds.map (fun c => c.value)).mergeSort
            (fun a b => decide (a ≤ b))).dedup.length =
          ((nonWilds.map (fun c => c.value)).mergeSort
            (fun a b => decide (a ≤ b))).length
    · have hbne : (((nonWilds.map (fun c => c.value)).mergeSort
          (fun a b => decide (a ≤ b))).dedup.length !=
            ((nonWilds.map (fun c => c.value)).mergeSort
              (fun a b => decide (a ≤ b))).length) = false := by
        simp [hdup]
      rw [hbne]
      simp only [Bool.false_eq_true, if_false]
      have hnod := hnodupiff.mp hdup
      by_cases hspan :
          ((nonWilds.map (fun c => c.value)).mergeSort
              (fun a b => decide (a ≤ b))).getLastD 0 -
            ((nonWilds.map (fun c => c.value)).mergeSort
              (fun a b => decide (a ≤ b))).headD 0 + 1 > (targetSize : Int)
      · rw [if_pos hspan]
        simp only [Bool.false_eq_true, false_iff]
        intro hcontra
        exact absurd hcontra.2.1 (not_le.mpr hspan)
      · rw [if_neg hspan]
        simp only [Bool.and_eq_true, decide_eq_true_eq]
        simp only [hnod, true_and]
        omega
    · have hbne : (((nonWilds.map (fun c => c.value)).mergeSort
          (fun a b => decide (a ≤ b))).dedup.length !=
            ((nonWilds.map (fun c => c.value)).mergeSort
              (fun a b => decide (a ≤ b))).length) = true := by
        simpa using hdup
      rw [hbne]
      simp only [if_true]
      constructor
      · intro h
        exact absurd h (by simp)
      · rintro ⟨hn, -⟩
        exact absurd (hnodupiff.mpr hn) hdup

/-- C5 (amended): for skip-free card lists, `isValidGroup(cards, run)`
holds exactly when, after removing wilds, the remaining ranks are
pairwise distinct, their span `max - min + 1` is at most the card
count, and the wilds can cover the gaps
(`wildCount ≥ span - nonWildCount`); the code's extra conjunct
`gaps + extraNeeded ≤ wildCount` is implied.  The skip-free hypothesis
is forced by the counterexample `claim_C5_counterexample`: the code
rejects any group containing a skip card while the claimed
characterization can still hold of it. -/
theorem claim_C5 (cards : List Card) (hns : ∀ c ∈ cards, c.isSkip = false) :
    isValidGroup cards .run = true ↔ runSpecHolds cards := by
  have hany : cards.any (fun c => c.isSkip) = false :=
    List.any_eq_false.mpr (fun x hx => by simp [hns x hx])
  have hfilter : cards.filter (fun c => !c.isWild && !c.isSkip) =
      cards.filter (fun c => !c.isWild) :=
    List.filter_congr (fun x hx => by rw [hns x hx]; simp)
  have hpart := (List.filter_append_perm (fun c => c.isWild) cards).length_eq
  rw [List.length_append] at hpart
  simp only [isValidGroup]
  rw [hany]
  simp only [Bool.false_eq_true, if_false]
  rw [hfilter, isValidRun_iff]
  unfold runSpecHolds
  constructor
  · rintro (h | ⟨hn, h1, h2, -⟩)
    · exact Or.inl h
    · exact Or.inr ⟨hn, h1, h2⟩
  · rintro (h | ⟨hn, h1, h2⟩)
    · exact Or.inl h
    · exact Or.inr ⟨hn, h1, h2, by omega⟩

/-- Witness for C5: a three-card rainbow run 3-4-5. -/
theorem claim_C5_witness :
    (∀ c ∈ [(⟨1, CardColor.red, 3, false, false⟩ : Card),
        ⟨2, CardColor.blue, 4, false, false⟩, ⟨3, CardColor.green, 5, false, false⟩],
      c.isSkip = false) ∧
    (isValidGroup [(⟨1, CardColor.red, 3, false, false⟩ : Card),
        ⟨2, CardColor.blue, 4, false, false⟩, ⟨3, CardColor.green, 5, false, false⟩]
        .run = true ↔
      runSpecHolds [(⟨1, CardColor.red, 3, false, false⟩ : Card),
        ⟨2, CardColor.blue, 4, false, false⟩, ⟨3, CardColor.green, 5, false, false⟩]) :=
  ⟨by decide, claim_C5 _ (by decide)⟩

/-- C5 counterexample: a lone skip card.  The code rejects every group
containing a skip, but the claimed characterization (which only removes
wilds) is satisfied: the single remaining rank -1 is trivially
distinct, the span 1 is at most the size 1, and no wilds are needed. -/
theorem claim_C5_counterexample :
    isValidGroup [(⟨0, CardColor.red, -1, false, true⟩ : Card)] .run = false ∧
    runSpecHolds [(⟨0, CardColor.red, -1, false, true⟩ : Card)] := by
  constructor
  · rfl
  · unfold runSpecHolds
    decide

/-! ### C4: the brute-force reference search -/

theorem picks_length_fst {α : Type _} :
    ∀ (l : List α) (n : Nat), ∀ p ∈ picks n l, p.1.length = n := by
  intro l
  induction l with
  | nil =>
    intro n p hp
    cases n with
    | zero => simp [picks] at hp; subst hp; rfl
    | succ n => simp [picks] at hp
  | cons x xs ih =>
    intro n p hp
    cases n with
    | zero => simp [picks] at hp; subst hp; rfl
    | succ n =>
      rw [picks, List.mem_append] at hp
      rcases hp with hp | hp
      · obtain ⟨q, hq, rfl⟩ := List.mem_map.mp hp
        simpa using ih n q hq
      · obtain ⟨q, hq, rfl⟩ := List.mem_map.mp hp
        exact ih (n + 1) q hq

theorem picks_perm {α : Type _} :
    ∀ (l : List α) (n : Nat), ∀ p ∈ picks n l, l.Perm (p.1 ++ p.2) := by
  intro l
  induction l with
  | nil =>
    intro n p hp
    cases n with
    | zero => simp [picks] at hp; subst hp; rfl
    | succ n => simp [picks] at hp
  | cons x xs ih =>
    intro n p hp
    cases n with
    | zero =>
      simp [picks] at hp
      subst hp
      simp
    | succ n =>
      rw [picks, List.mem_append] at hp
      rcases hp with hp | hp
      · obtain ⟨q, hq, rfl⟩ := List.mem_map.mp hp
        simpa using (ih n q hq).cons x
      · obtain ⟨q, hq, rfl⟩ := List.mem_map.mp hp
        have h1 := (ih (n + 1) q hq).cons x
        have h2 : (x :: (q.1 ++ q.2)).Perm (q.1 ++ x :: q.2) := List.perm_middle.symm
        exact h1.trans h2

theorem picks_sublist {α : Type _} :
    ∀ (l : List α) (n : Nat), ∀ p ∈ picks n l, p.1.Sublist l ∧ p.2.Sublist l := by
  intro l
  induction l with
  | nil =>
    intro n p hp
    cases n with
    | zero => simp [picks] at hp; subst hp; exact ⟨List.Sublist.refl _, List.Sublist.refl _⟩
    | succ n => simp [picks] at hp
  | cons x xs ih =>
    intro n p hp
    cases n with
    | zero =>
      simp [picks] at hp
      subst hp
      exact ⟨List.nil_sublist _, List.Sublist.refl _⟩
    | succ n =>
      rw [picks, List.mem_append] at hp
      rcases hp with hp | hp
      · obtain ⟨q, hq, rfl⟩ := List.mem_map.mp hp
        exact ⟨(ih n q hq).1.cons_cons x, (ih n q hq).2.cons x⟩
      · obtain ⟨q, hq, rfl⟩ := List.mem_map.mp hp
        exact ⟨(ih (n + 1) q hq).1.cons x, (ih (n + 1) q hq).2.cons_cons x⟩

theorem getCombinations_eq_picks {α : Type _} :
    ∀ (l : List α) (n : Nat), getCombinations l n = (picks n l).map Prod.fst := by
  intro l
  induction l with
  | nil =>
    intro n
    cases n with
    | zero => rfl
    | succ n => rfl
  | cons x xs ih =>
    intro n
    cases n with
    | zero => rfl
    | succ n =>
      rw [getCombinations, picks, List.map_append, List.map_map, List.map_map]
      rw [ih n, ih (n + 1), List.map_map]
      rfl

theorem removeCards_picks :
    ∀ (l : List Card) (n : Nat), ((l.map (fun c => c.id)).Nodup) →
      ∀ p ∈ picks n l, removeCards l p.1 = p.2 := by
  intro l
  induction l with
  | nil =>
    intro n _ p hp
    cases n with
    | zero => simp [picks] at hp; subst hp; rfl
    | succ n => simp [picks] at hp
  | cons x xs ih =>
    intro n hnodup p hp
    rw [List.map_cons, List.nodup_cons] at hnodup
    obtain ⟨hxnotin, hxs⟩ := hnodup
    cases n with
    | zero =>
      simp [picks] at hp
      subst hp
      simp [removeCards]
    | succ n =>
      rw [picks, List.mem_append] at hp
      rcases hp with hp | hp
      · obtain ⟨q, hq, rfl⟩ := List.mem_map.mp hp
        show removeCards (x :: xs) (x :: q.1) = q.2
        unfold removeCards
        rw [List.filter_cons]
        have hx : ((x :: q.1).any (fun r => r.id == x.id)) = true := by
          simp
        rw [hx]
        simp only [Bool.not_true, Bool.false_eq_true, if_false]
        have hcong : xs.filter (fun c => !((x :: q.1).any (fun r => r.id == c.id))) =
            xs.filter (fun c => !(q.1.any (fun r => r.id == c.id))) := by
          apply List.filter_congr
          intro d hd
          have hne : (x.id == d.id) = false := by
            have : x.id ≠ d.id := by
              intro heq
              exact hxnotin (heq ▸ List.mem_map_of_mem (fun c => c.id) hd)
            simpa using this
          simp [List.any_cons, hne]
        rw [hcong]
        exact ih n hxs q hq
      · obtain ⟨q, hq, rfl⟩ := List.mem_map.mp hp
        show removeCards (x :: xs) q.1 = x :: q.2
        unfold removeCards
        rw [List.filter_cons]
        have hq1sub : q.1.Sublist xs := (picks_sublist xs (n + 1) q hq).1
        have hx : (q.1.any (fun r => r.id == x.id)) = false := by
          rw [List.any_eq_false]
          intro r hr
          have : r.id ∈ xs.map (fun c => c.id) :=
            List.mem_map_of_mem (fun c => c.id) (hq1sub.mem hr)
          intro hrx
          exact hxnotin ((by simpa using hrx : r.id = x.id) ▸ this)
        rw [hx]
        simp only [Bool.not_false, if_true]
        have := ih (n + 1) hxs q hq
        unfold removeCards at this
        rw [this]

theorem findSome?_eq_some_imp {α β : Type _} (f : α → Option β) :
    ∀ (l : List α) (b : β), l.findSome? f = some b → ∃ a ∈ l, f a = some b := by
  intro l
  induction l with
  | nil => intro b h; simp [List.findSome?] at h
  | cons x xs ih =>
    intro b h
    rw [List.findSome?_cons] at h
    cases hfx : f x with
    | some c =>
      rw [hfx] at h
      simp at h
      exact ⟨x, by simp, by rw [hfx, h]⟩
    | none =>
      rw [hfx] at h
      simp at h
      obtain ⟨a, ha, hfa⟩ := ih b h
      exact ⟨a, List.mem_cons_of_mem x ha, hfa⟩

theorem tryAssignCards_expand (b : Nat) (cards : List Card) (acc : List (List Card))
    (r : PhaseRequirement) (rest : List PhaseRequirement) (h : 1 < r.quantity) :
    tryAssignCards (b + 1) cards (r :: rest) acc =
      tryAssignCards b cards
        ({ r with quantity := 1 } :: { r with quantity := r.quantity - 1 } :: rest) acc := by
  simp only [tryAssignCards]
  rw [if_pos h]

theorem tryAssignCards_choice (b : Nat) (cards : List Card) (acc : List (List Card))
    (r : PhaseRequirement) (rest : List PhaseRequirement) (h : ¬ 1 < r.quantity) :
    tryAssignCards (b + 1) cards (r :: rest) acc =
      match (findValidGroups cards r.type r.size).findSome?
          (fun group =>
            let result := tryAssignCards b (removeCards cards group) rest (acc ++ [group])
            if result.valid then some result else none) with
      | some result => result
      | none => { valid := false, groups := [], error := some "cannot satisfy requirement" } := by
  simp only [tryAssignCards]
  rw [if_neg h]

/-- Core equivalence behind C4: with distinct card ids, at least one
group demanded per requirement, and the exact card count, the source's
backtracking search accepts exactly when the brute-force reference
search over all partitions finds a valid assignment.  The depth budget
hypothesis is met by `validatePhase`'s `searchBudget`. -/
theorem tryAssign_eq_bruteForce :
    ∀ (budget : Nat) (reqs : List PhaseRequirement) (cards : List Card)
      (acc : List (List Card)),
      ((cards.map (fun c => c.id)).Nodup) →
      (∀ r ∈ reqs, 1 ≤ r.quantity) →
      cards.length = ((expandReqs reqs).map (fun t => t.2)).sum →
      2 * reqMeasure reqs + reqs.length + 1 ≤ budget →
      ((tryAssignCards budget cards reqs acc).valid = true ↔
        bruteForcePhase cards (expandReqs reqs) = true) := by
  intro budget
  induction budget with
  | zero =>
    intro reqs cards acc _ _ _ hb
    omega
  | succ b ih =>
    intro reqs cards acc hnodup hq hlen hb
    match reqs with
    | [] =>
      have hnil : cards = [] := by
        have : cards.length = 0 := by simpa [expandReqs] using hlen
        exact List.length_eq_zero.mp this
      subst hnil
      simp [tryAssignCards, bruteForcePhase, expandReqs]
    | currentReq :: otherReqs =>
      by_cases hq1 : 1 < currentReq.quantity
      · -- quantity expansion step
        have hexp : expandReqs ({ currentReq with quantity := 1 } ::
            { currentReq with quantity := currentReq.quantity - 1 } :: otherReqs) =
            expandReqs (currentReq :: otherReqs) := by
          show List.replicate 1 (currentReq.type, currentReq.size) ++
              (List.replicate (currentReq.quantity - 1) (currentReq.type, currentReq.size) ++
                expandReqs otherReqs) =
            List.replicate currentReq.quantity (currentReq.type, currentReq.size) ++
              expandReqs otherReqs
          rw [← List.append_assoc, ← List.replicate_add]
          congr 2
          omega
        rw [tryAssignCards_expand b cards acc currentReq otherReqs hq1, ← hexp]
        apply ih
        · exact hnodup
        · intro r hr
          rcases List.mem_cons.mp hr with rfl | hr
          · exact le_refl 1
          · rcases List.mem_cons.mp hr with rfl | hr
            · show 1 ≤ currentReq.quantity - 1
              omega
            · exact hq r (List.mem_cons_of_mem _ hr)
        · rw [hexp]
          exact hlen
        · have hm : reqMeasure (currentReq :: otherReqs) =
              (currentReq.quantity - 1) + reqMeasure otherReqs := by
            simp [reqMeasure]
          have hm2 : reqMeasure ({ currentReq with quantity := 1 } ::
              { currentReq with quantity := currentReq.quantity - 1 } :: otherReqs) =
              (currentReq.quantity - 1 - 1) + reqMeasure otherReqs := by
            simp [reqMeasure]
          rw [hm2]
          rw [hm] at hb
          simp only [List.length_cons] at hb ⊢
          omega
      · -- one group is consumed
        have hq1' : currentReq.quantity = 1 := by
          have := hq currentReq (List.mem_cons_self _ _)
          omega
        have hexp : expandReqs (currentReq :: otherReqs) =
            (currentReq.type, currentReq.size) :: expandReqs otherReqs := by
          show List.replicate currentReq.quantity (currentReq.type, currentReq.size) ++
              expandReqs otherReqs = _
          rw [hq1']
          rfl
        have hmeas : reqMeasure (currentReq :: otherReqs) = reqMeasure otherReqs := by
          simp [reqMeasure, hq1']
        have hb2 : 2 * reqMeasure otherReqs + otherReqs.length + 1 ≤ b := by
          rw [hmeas] at hb
          simp only [List.length_cons] at hb
          omega
        have hlen2 : ∀ p ∈ picks currentReq.size cards,
            p.2.length = ((expandReqs otherReqs).map (fun t => t.2)).sum := by
          intro p hp
          have hperm := picks_perm cards currentReq.size p hp
          have hfst := picks_length_fst cards currentReq.size p hp
          have := hperm.length_eq
          rw [List.length_append, hfst] at this
          rw [hexp] at hlen
          simp only [List.map_cons, List.sum_cons] at hlen
          omega
        have hinner : ∀ p ∈ picks currentReq.size cards,
            ((tryAssignCards b p.2 otherReqs (acc ++ [p.1])).valid = true ↔
              bruteForcePhase p.2 (expandReqs otherReqs) = true) := by
          intro p hp
          apply ih
          · exact ((picks_sublist cards currentReq.size p hp).2.map
              (fun c => c.id)).nodup hnodup
          · exact fun r hr => hq r (List.mem_cons_of_mem _ hr)
          · exact hlen2 p hp
          · exact hb2
        rw [tryAssignCards_choice b cards acc currentReq otherReqs hq1, hexp]
        rw [show bruteForcePhase cards
            ((currentReq.type, currentReq.size) :: expandReqs otherReqs) =
            (picks currentReq.size cards).any (fun p =>
              isValidGroup p.1 currentReq.type &&
                bruteForcePhase p.2 (expandReqs otherReqs)) from rfl]
        constructor
        · intro hL
          cases hfs : (findValidGroups cards currentReq.type currentReq.size).findSome?
              (fun group =>
                let result := tryAssignCards b (removeCards cards group) otherReqs
                  (acc ++ [group])
                if result.valid then some result else none) with
          | none =>
            rw [hfs] at hL
            simp at hL
          | some r =>
            obtain ⟨g, hgmem, hg⟩ := findSome?_eq_some_imp _ _ _ hfs
            have hgv : (tryAssignCards b (removeCards cards g) otherReqs
                (acc ++ [g])).valid = true := by
              by_contra hnv
              simp only at hg
              rw [if_neg hnv] at hg
              exact Option.noConfusion hg
            have hgc := List.mem_filter.mp hgmem
            have hgpick : g ∈ (picks currentReq.size cards).map Prod.fst := by
              rw [← getCombinations_eq_picks]
              exact hgc.1
            obtain ⟨p, hpmem, hpfst⟩ := List.mem_map.mp hgpick
            have hrc : removeCards cards g = p.2 := by
              rw [← hpfst]
              exact removeCards_picks cards currentReq.size hnodup p hpmem
            rw [List.any_eq_true]
            refine ⟨p, hpmem, ?_⟩
            rw [Bool.and_eq_true]
            constructor
            · rw [hpfst]
              exact hgc.2
            · rw [hrc] at hgv
              rw [← hpfst] at hgv
              exact (hinner p hpmem).mp hgv
        · intro hR
          obtain ⟨p, hpmem, hpand⟩ := List.any_eq_true.mp hR
          rw [Bool.and_eq_true] at hpand
          obtain ⟨hvg, hbr⟩ := hpand
          have hrc : removeCards cards p.1 = p.2 :=
            removeCards_picks cards currentReq.size hnodup p hpmem
          have hv : (tryAssignCards b (removeCards cards p.1) otherReqs
              (acc ++ [p.1])).valid = true := by
            rw [hrc]
            exact (hinner p hpmem).mpr hbr
          cases hfs : (findValidGroups cards currentReq.type currentReq.size).findSome?
              (fun group =>
                let result := tryAssignCards b (removeCards cards group) otherReqs
                  (acc ++ [group])
                if result.valid then some result else none) with
          | some r =>
            obtain ⟨g, _, hg⟩ := findSome?_eq_some_imp _ _ _ hfs
            have hrv : r.valid = true := by
              by_cases hgv : (tryAssignCards b (removeCards cards g) otherReqs
                  (acc ++ [g])).valid = true
              · simp only at hg
                rw [if_pos hgv] at hg
                cases hg
                exact hgv
              · simp only at hg
                rw [if_neg hgv] at hg
                exact Option.noConfusion hg
            simpa using hrv
          | none =>
            have hnone := List.findSome?_eq_none_iff.mp hfs
            have hp1mem : p.1 ∈ findValidGroups cards currentReq.type currentReq.size := by
              apply List.mem_filter.mpr
              constructor
              · rw [getCombinations_eq_picks]
                exact List.mem_map_of_mem Prod.fst hpmem
              · exact hvg
            have := hnone p.1 hp1mem
            simp only at this
            rw [if_pos hv] at this
            exact Option.noConfusion this

theorem expandReqs_sum (reqs : List PhaseRequirement) :
    ((expandReqs reqs).map (fun t => t.2)).sum =
      (reqs.map (fun r => r.size * r.quantity)).sum := by
  induction reqs with
  | nil => rfl
  | cons r rest ih =>
    show ((List.replicate r.quantity (r.type, r.size) ++ expandReqs rest).map
      (fun t => t.2)).sum = _
    rw [List.map_append, List.sum_append, ih, List.map_replicate]
    rw [List.sum_replicate, smul_eq_mul, Nat.mul_comm]
    rfl

/-- C4 (amended): for every requirement list in which each requirement
demands at least one group, and every card list with pairwise distinct
ids whose length equals the exact required total, `validatePhase`
accepts exactly when the independent brute-force reference search over
all partitions finds an assignment of disjoint groups satisfying the
requirements.  (Proved for all hand sizes, hence in particular for
hands up to 10 cards.)  Both added hypotheses are forced by
`claim_C4_counterexample`. -/
theorem claim_C4 (cards : List Card) (reqs : List PhaseRequirement)
    (hnodup : (cards.map (fun c => c.id)).Nodup)
    (hq : ∀ r ∈ reqs, 1 ≤ r.quantity)
    (hlen : cards.length = (reqs.map (fun r => r.size * r.quantity)).sum) :
    ((validatePhase cards reqs).valid = true ↔
      bruteForcePhase cards (expandReqs reqs) = true) := by
  have hbne : (cards.length != (reqs.map (fun req => req.size * req.quantity)).sum)
      = false := by
    simp [hlen]
  simp only [validatePhase]
  rw [hbne]
  simp only [Bool.false_eq_true, if_false]
  apply tryAssign_eq_bruteForce (searchBudget reqs) reqs cards [] hnodup hq
  · rw [expandReqs_sum]
    exact hlen
  · exact le_refl _

/-- Witness for C4: two rank-triples against phase 1 (two sets of
three). -/
theorem claim_C4_witness :
    ((([(⟨1, CardColor.red, 1, false, false⟩ : Card), ⟨2, CardColor.blue, 1, false, false⟩,
        ⟨3, CardColor.green, 1, false, false⟩, ⟨4, CardColor.red, 2, false, false⟩,
        ⟨5, CardColor.blue, 2, false, false⟩, ⟨6, CardColor.green, 2, false, false⟩]).map
          (fun c => c.id)).Nodup ∧
      (∀ r ∈ [(⟨.set, 3, 2⟩ : PhaseRequirement)], 1 ≤ r.quantity)) ∧
    ((validatePhase [(⟨1, CardColor.red, 1, false, false⟩ : Card),
        ⟨2, CardColor.blue, 1, false, false⟩, ⟨3, CardColor.green, 1, false, false⟩,
        ⟨4, CardColor.red, 2, false, false⟩, ⟨5, CardColor.blue, 2, false, false⟩,
        ⟨6, CardColor.green, 2, false, false⟩] [⟨.set, 3, 2⟩]).valid = true ↔
      bruteForcePhase [(⟨1, CardColor.red, 1, false, false⟩ : Card),
        ⟨2, CardColor.blue, 1, false, false⟩, ⟨3, CardColor.green, 1, false, false⟩,
        ⟨4, CardColor.red, 2, false, false⟩, ⟨5, CardColor.blue, 2, false, false⟩,
        ⟨6, CardColor.green, 2, false, false⟩] (expandReqs [⟨.set, 3, 2⟩]) = true) :=
  ⟨⟨by decide, by decide⟩, claim_C4 _ _ (by decide) (by decide) (by decide)⟩

/-- C4 counterexample, in two parts.  First, duplicate card ids break
the equivalence: on two copies of one card against two sets of one,
`removeCards` removes both copies by id after the first group commits,
so `validatePhase` rejects while the partition search accepts.  Second,
a requirement of quantity 0 breaks it: `tryAssignCards` treats any
quantity at most one as demanding one group, so `validatePhase` rejects
the empty hand against a quantity-0 requirement while the reference
search (zero groups needed) accepts.  Both lists have the exact
required total length, so they are inside the claimed scope. -/
theorem claim_C4_counterexample :
    ((validatePhase [⟨0, CardColor.red, 1, false, false⟩, ⟨0, CardColor.red, 1, false, false⟩]
        [⟨.set, 1, 2⟩]).valid = false ∧
      bruteForcePhase [⟨0, CardColor.red, 1, false, false⟩, ⟨0, CardColor.red, 1, false, false⟩]
        (expandReqs [⟨.set, 1, 2⟩]) = true ∧
      ([(⟨0, CardColor.red, 1, false, false⟩ : Card),
        ⟨0, CardColor.red, 1, false, false⟩]).length =
        (([(⟨.set, 1, 2⟩ : PhaseRequirement)]).map (fun r => r.size * r.quantity)).sum) ∧
    ((validatePhase [] [⟨.set, 3, 0⟩]).valid = false ∧
      bruteForcePhase [] (expandReqs [⟨.set, 3, 0⟩]) = true ∧
      ([] : List Card).length =
        (([(⟨.set, 3, 0⟩ : PhaseRequirement)]).map (fun r => r.size * r.quantity)).sum) := by
  decide

/-! ### Turn-engine claim theorems -/

theorem requireActiveSeat_ok (sess : Session) (player : GamePlayer)
    (hget : sess.players[sess.game.currentPlayerIndex]? = some player) :
    requireActiveSeat sess sess.game.currentPlayerIndex = .ok player := by
  unfold requireActiveSeat
  rw [hget]
  simp

/-- C7: a successful discard that does not empty the hand advances the
active seat to `(index + 1) % seats`, one seat further when the
discarded card is a skip, and resets the turn phase to `draw`; the
removed card is appended to the discard pile and only the acting
seat's hand changes. -/
theorem claim_C7 (idsNew rndNew : Nat → Nat) (sess : Session) (card : Card)
    (player : GamePlayer) (removed : Card) (newHand : List Card)
    (hget : sess.players[sess.game.currentPlayerIndex]? = some player)
    (hphase : sess.game.turnPhase = .play)
    (hremove : removeCardById player.hand card.id = (some removed, newHand))
    (hne : newHand ≠ []) :
    discardCardAction idsNew rndNew sess sess.game.currentPlayerIndex card = .ok { sess with
      game := { sess.game with
        discardPile := sess.game.discardPile ++ [removed],
        currentPlayerIndex :=
          if card.isSkip then
            ((sess.game.currentPlayerIndex + 1) % sess.players.length + 1) %
              sess.players.length
          else (sess.game.currentPlayerIndex + 1) % sess.players.length,
        turnPhase := .draw },
      players := sess.players.set sess.game.currentPlayerIndex
        { player with hand := newHand } } := by
  have hne2 : newHand.isEmpty = false := by
    cases newHand with
    | nil => exact absurd rfl hne
    | cons a t => rfl
  unfold discardCardAction
  rw [requireActiveSeat_ok sess player hget]
  show (if sess.game.turnPhase != .play then _ else _) = _
  rw [hphase]
  simp only [bne_self_eq_false, Bool.false_eq_true, if_false]
  rw [hremove]
  simp only [hne2, Bool.false_eq_true, if_false]
  rfl

/-- Witness for C7, the spec scenario: seats 0, 1 and 2; the active
seat 0 discards a skip card, so the next active seat is 2 and seat 1
is skipped. -/
theorem claim_C7_witness :
    ∃ result,
      discardCardAction (fun k => k) (fun _ => 0) sessC7 sessC7.game.currentPlayerIndex
        skipCardA = .ok result ∧
      result.game.currentPlayerIndex = 2 ∧ result.game.turnPhase = .draw := by
  refine ⟨_, claim_C7 (fun k => k) (fun _ => 0) sessC7 skipCardA
    { blankPlayer with hand := [skipCardA, fiveCardA] } skipCardA [fiveCardA]
    (by decide) (by decide) (by decide) (by decide), by decide, by decide⟩

/-- C6: a pile-draw by the active seat in the draw state with an empty
draw pile.  With at most one discard card the action fails with the
resource-exhaustion error (the embedding returns the error before any
state change); otherwise every discard card except the top becomes the
new shuffled draw pile, from whose top the drawn card `c` is taken
(`drawPile ++ [c]` is a permutation of the old discard pile without its
top), the former top remains the sole discard card, the drawn card is
appended to the seat's hand, and the turn phase becomes `play`. -/
theorem claim_C6 (rnd : Nat → Nat) (sess : Session) (player : GamePlayer)
    (hget : sess.players[sess.game.currentPlayerIndex]? = some player)
    (hphase : sess.game.turnPhase = .draw)
    (hempty : sess.game.drawPile = []) :
    (sess.game.discardPile.length ≤ 1 →
      drawCardAction rnd sess sess.game.currentPlayerIndex .pile =
        .error "No cards left to draw") ∧
    (2 ≤ sess.game.discardPile.length →
      ∃ top c S, sess.game.discardPile.getLast? = some top ∧
        drawCardAction rnd sess sess.game.currentPlayerIndex .pile = .ok S ∧
        S.game.discardPile = [top] ∧
        S.game.turnPhase = .play ∧
        S.players = sess.players.set sess.game.currentPlayerIndex
          { player with hand := player.hand ++ [c] } ∧
        (S.game.drawPile ++ [c]).Perm sess.game.discardPile.dropLast ∧
        S.game.currentPlayerIndex = sess.game.currentPlayerIndex ∧
        S.game.status = sess.game.status) := by
  have hemptyb : sess.game.drawPile.isEmpty = true := by rw [hempty]; rfl
  constructor
  · intro hle
    unfold drawCardAction
    rw [requireActiveSeat_ok sess player hget]
    show (if sess.game.turnPhase != .draw then _ else _) = _
    rw [hphase]
    simp only [bne_self_eq_false, Bool.false_eq_true, if_false]
    show (if sess.game.drawPile.isEmpty = true then _ else _) = _
    rw [hemptyb]
    simp only [if_true]
    rw [if_pos hle]
    rfl
  · intro h2
    have hdne : sess.game.discardPile ≠ [] := by
      intro hnil
      rw [hnil] at h2
      simp at h2
    have htop := List.getLast?_eq_getLast _ hdne
    have hdl : (sess.game.discardPile.dropLast).length =
        sess.game.discardPile.length - 1 := by
      simp
    have hshl : (shuffle rnd sess.game.discardPile.dropLast).length =
        sess.game.discardPile.length - 1 := by
      rw [shuffle_length, hdl]
    have hshne : shuffle rnd sess.game.discardPile.dropLast ≠ [] := by
      intro hnil
      rw [hnil] at hshl
      simp at hshl
      omega
    have hcl := List.getLast?_eq_getLast _ hshne
    refine ⟨sess.game.discardPile.getLast hdne,
      (shuffle rnd sess.game.discardPile.dropLast).getLast hshne,
      { sess with
        game := { sess.game with
          drawPile := (shuffle rnd sess.game.discardPile.dropLast).dropLast,
          discardPile := [sess.game.discardPile.getLast hdne],
          turnPhase := .play },
        players := sess.players.set sess.game.currentPlayerIndex
          { player with hand := player.hand ++
            [(shuffle rnd sess.game.discardPile.dropLast).getLast hshne] } },
      htop, ?_, rfl, rfl, rfl, ?_, rfl, rfl⟩
    · unfold drawCardAction
      rw [requireActiveSeat_ok sess player hget]
      show (if sess.game.turnPhase != .draw then _ else _) = _
      rw [hphase]
      simp only [bne_self_eq_false, Bool.false_eq_true, if_false]
      show (if sess.game.drawPile.isEmpty = true then _ else _) = _
      rw [hemptyb]
      simp only [if_true]
      rw [if_neg (by omega)]
      rw [htop, hcl]
      rfl
    · show ((shuffle rnd sess.game.discardPile.dropLast).dropLast ++
        [(shuffle rnd sess.game.discardPile.dropLast).getLast hshne]).Perm
          sess.game.discardPile.dropLast
      rw [List.dropLast_append_getLast hshne]
      exact shuffle_perm rnd _

/-- Witness for C6, the spec scenario: a five-card discard pile; the
reshuffle leaves one discard card and four cards feeding the draw, one
of which is immediately drawn. -/
theorem claim_C6_witness :
    (2 ≤ sessC6.game.discardPile.length) ∧
    (∃ top c S, sessC6.game.discardPile.getLast? = some top ∧
      drawCardAction (fun _ => 0) sessC6 sessC6.game.currentPlayerIndex .pile = .ok S ∧
      S.game.discardPile = [top] ∧
      S.game.turnPhase = .play ∧
      S.players = sessC6.players.set sessC6.game.currentPlayerIndex
        { { blankPlayer with hand := [fiveCardA] } with
          hand := { blankPlayer with hand := [fiveCardA] }.hand ++ [c] } ∧
      (S.game.drawPile ++ [c]).Perm sessC6.game.discardPile.dropLast ∧
      S.game.currentPlayerIndex = sessC6.game.currentPlayerIndex ∧
      S.game.status = sessC6.game.status) :=
  ⟨by decide,
    (claim_C6 (fun _ => 0) sessC6 { blankPlayer with hand := [fiveCardA] }
      (by decide) (by decide) (by decide)).2 (by decide)⟩

/-- C10: when the active seat's discard of a skip card empties the
hand, the skip's extra seat-advance is never applied: the round scorer
runs instead (every seat is scored and reset by `scorePlayers`, then
re-dealt), and with no match winner the next round starts with active
seat 0 in the draw state and the fresh `setupGame` piles.  The
hypothesis `hskip` records that the discarded card is a skip; the
resulting active seat is 0 regardless. -/
theorem claim_C10 (idsNew rndNew : Nat → Nat) (sess : Session) (card : Card)
    (player : GamePlayer) (removed : Card)
    (hands : List (List Card)) (dp dcp : List Card)
    (hget : sess.players[sess.game.currentPlayerIndex]? = some player)
    (hphase : sess.game.turnPhase = .play)
    (hremove : removeCardById player.hand card.id = (some removed, []))
    (hskip : card.isSkip = true)
    (hnowin : findGameWinner sess.players sess.phases.length = none)
    (hsetup : setupGame idsNew rndNew sess.players.length = some (hands, dp, dcp)) :
    discardCardAction idsNew rndNew sess sess.game.currentPlayerIndex card =
      .ok { sess with
        game := { sess.game with
          drawPile := dp, discardPile := dcp,
          currentPlayerIndex := 0, turnPhase := .draw },
        players := List.zipWith (fun p h => { p with hand := h })
          (scorePlayers sess.players) hands } := by
  unfold discardCardAction
  rw [requireActiveSeat_ok sess player hget]
  show (if sess.game.turnPhase != .play then _ else _) = _
  rw [hphase]
  simp only [bne_self_eq_false, Bool.false_eq_true, if_false]
  rw [hremove]
  show (if (List.nil.isEmpty : Bool) = true then _ else _) = _
  simp only [List.isEmpty_nil, if_true]
  unfold handleRoundEnd
  dsimp only
  rw [hnowin, hsetup]

set_option maxRecDepth 10000 in
/-- Witness for C10: two seats, the active seat discards its last card,
a skip; the next state has active seat 0 (not the skip-advanced seat)
in the draw phase with a freshly dealt round. -/
theorem claim_C10_witness :
    ∃ hands dp dcp,
      setupGame (fun k => k) (fun _ => 0) sessC10.players.length = some (hands, dp, dcp) ∧
      discardCardAction (fun k => k) (fun _ => 0) sessC10 sessC10.game.currentPlayerIndex
        skipCardA =
        .ok { sessC10 with
          game := { sessC10.game with
            drawPile := dp, discardPile := dcp,
            currentPlayerIndex := 0, turnPhase := .draw },
          players := List.zipWith (fun p h => { p with hand := h })
            (scorePlayers sessC10.players) hands } := by
  obtain ⟨hands, dp, dcp, hsetup⟩ :
      ∃ h d c, setupGame (fun k => k) (fun _ => 0) sessC10.players.length = some (h, d, c) := by
    cases hs : setupGame (fun k => k) (fun _ => 0) sessC10.players.length with
    | none => exact absurd hs (by decide)
    | some t => exact ⟨t.1, t.2.1, t.2.2, rfl⟩
  exact ⟨hands, dp, dcp, hsetup,
    claim_C10 (fun k => k) (fun _ => 0) sessC10 skipCardA
      { blankPlayer with hand := [skipCardA], hasLaidDown := true } skipCardA hands dp dcp
      (by decide) (by decide) (by decide) (by decide) (by decide) hsetup⟩

/-! ### C2: laying down -/

theorem eraseP_id_remove (hand : List Card) (c : Card) (hmem : c ∈ hand)
    (hnodup : (hand.map (fun x => x.id)).Nodup) :
    hand.Perm (c :: hand.eraseP (fun x => x.id == c.id)) ∧
    ((hand.eraseP (fun x => x.id == c.id)).map (fun x => x.id)).Nodup ∧
    (∀ d ∈ hand, d.id ≠ c.id → d ∈ hand.eraseP (fun x => x.id == c.id)) := by
  obtain ⟨b, l1, l2, hl1, hb, hdecomp, herase⟩ :=
    @List.exists_of_eraseP _ (fun x => x.id == c.id) hand c hmem (beq_self_eq_true c.id)
  have hbmem : b ∈ hand := by rw [hdecomp]; simp
  have hbc : b = c := List.inj_on_of_nodup_map hnodup hbmem hmem (by simpa using hb)
  subst hbc
  refine ⟨?_, ?_, ?_⟩
  · rw [herase]
    rw [hdecomp]
    exact List.perm_middle
  · exact ((List.eraseP_sublist hand).map (fun x => x.id)).nodup hnodup
  · intro d hd hdne
    rw [herase]
    rw [hdecomp] at hd
    rcases List.mem_append.mp hd with h | h
    · exact List.mem_append.mpr (Or.inl h)
    · rcases List.mem_cons.mp h with rfl | h
      · exact absurd rfl hdne
      · exact List.mem_append.mpr (Or.inr h)

/-- Removing, id by id, a duplicate-free sub-collection of a
duplicate-free hand takes away exactly those cards: the final hand plus
the removed cards is a permutation of the original hand. -/
theorem foldl_removeCardById_perm :
    ∀ (flat hand : List Card),
      (∀ c ∈ flat, c ∈ hand) → ((hand.map (fun x => x.id)).Nodup) →
      ((flat.map (fun x => x.id)).Nodup) →
      ((flat.foldl (fun h card => (removeCardById h card.id).2) hand) ++ flat).Perm hand := by
  intro flat
  induction flat with
  | nil =>
    intro hand _ _ _
    simp
  | cons c cs ih =>
    intro hand hsub hnodup hflat
    have hcmem : c ∈ hand := hsub c (List.mem_cons_self _ _)
    obtain ⟨hperm, hnodup2, hmem2⟩ := eraseP_id_remove hand c hcmem hnodup
    rw [List.foldl_cons]
    have hsnd : (removeCardById hand c.id).2 = hand.eraseP (fun x => x.id == c.id) := by
      rw [removeCardById_eq]
    rw [hsnd]
    rw [List.map_cons, List.nodup_cons] at hflat
    obtain ⟨hcnotin, hcs_nodup⟩ := hflat
    have hsub2 : ∀ d ∈ cs, d ∈ hand.eraseP (fun x => x.id == c.id) := by
      intro d hd
      apply hmem2 d (hsub d (List.mem_cons_of_mem c hd))
      intro heq
      exact hcnotin (heq ▸ List.mem_map_of_mem (fun x => x.id) hd)
    have ihh := ih _ hsub2 hnodup2 hcs_nodup
    have s1 : ((cs.foldl (fun h card => (removeCardById h card.id).2)
        (hand.eraseP (fun x => x.id == c.id))) ++ (c :: cs)).Perm
        (c :: ((cs.foldl (fun h card => (removeCardById h card.id).2)
          (hand.eraseP (fun x => x.id == c.id))) ++ cs)) := List.perm_middle
    exact (s1.trans (ihh.cons c)).trans hperm.symm

/-- C2 (amended): when the active seat lays down in the play state,
not having laid down before, with a known current phase, the matcher
accepting the flattened groups, and the submitted cards genuinely
drawn from the hand (distinct ids, each card in the duplicate-free
hand), the action records the *submitted* `cardGroups` — not the
matcher's returned groups — as the laid-down groups, sets the
has-laid-down flag, and removes exactly the submitted cards from the
hand; nothing else changes. -/
theorem claim_C2 (sess : Session) (cardGroups : List (List Card)) (player : GamePlayer)
    (reqs : List PhaseRequirement)
    (hget : sess.players[sess.game.currentPlayerIndex]? = some player)
    (hphase : sess.game.turnPhase = .play)
    (hnotlaid : player.hasLaidDown = false)
    (hreqs : sess.phases[player.currentPhaseIndex]? = some reqs)
    (hvalid : (validatePhase cardGroups.flatten reqs).valid = true)
    (hsub : ∀ c ∈ cardGroups.flatten, c ∈ player.hand)
    (hnodupHand : (player.hand.map (fun x => x.id)).Nodup)
    (hnodupFlat : (cardGroups.flatten.map (fun x => x.id)).Nodup) :
    ∃ newHand,
      layDownPhaseAction sess sess.game.currentPlayerIndex cardGroups = .ok
        { sess with
          players := sess.players.set sess.game.currentPlayerIndex
            { player with
              hand := newHand
              hasLaidDown := true
              laidDownCards := cardGroups } } ∧
      (newHand ++ cardGroups.flatten).Perm player.hand := by
  refine ⟨cardGroups.flatten.foldl (fun h card => (removeCardById h card.id).2) player.hand,
    ?_, foldl_removeCardById_perm _ _ hsub hnodupHand hnodupFlat⟩
  unfold layDownPhaseAction
  rw [requireActiveSeat_ok sess player hget]
  show (if sess.game.turnPhase != .play then _ else _) = _
  rw [hphase]
  simp only [bne_self_eq_false, Bool.false_eq_true, if_false]
  rw [hnotlaid]
  simp only [Bool.false_eq_true, if_false]
  rw [hreqs]
  show (if (!(validatePhase cardGroups.flatten reqs).valid) = true then _ else _) = _
  rw [hvalid]
  simp only [Bool.not_true, Bool.false_eq_true, if_false]
  rfl

/-- Witness for C2: seat 0 submits the two triples as grouped; the
action succeeds and the submitted groups are recorded. -/
theorem claim_C2_witness :
    ∃ newHand : List Card,
      layDownPhaseAction sessC2 sessC2.game.currentPlayerIndex
        [[cardR1, cardB1, cardG1], [cardR2, cardB2, cardG2]] = .ok
        { sessC2 with
          players := sessC2.players.set sessC2.game.currentPlayerIndex
            { playerC2 with
              hand := newHand
              hasLaidDown := true
              laidDownCards := [[cardR1, cardB1, cardG1], [cardR2, cardB2, cardG2]] } } ∧
      (newHand ++ ([[cardR1, cardB1, cardG1], [cardR2, cardB2, cardG2]] :
          List (List Card)).flatten).Perm playerC2.hand :=
  claim_C2 sessC2 [[cardR1, cardB1, cardG1], [cardR2, cardB2, cardG2]] playerC2
    [⟨.set, 3, 2⟩] (by decide) (by decide) (by decide) (by decide) (by decide)
    (by decide) (by decide) (by decide)

/-- C2 counterexample: the submitted grouping mixes the two triples
([R1 B1 R2] and [G1 B2 G2]); the matcher accepts the flattened cards
but returns the regrouped triples [[R1 B1 G1], [R2 B2 G2]], while the
successful action records the *submitted* groups — so the recorded
groups are not the groups returned by the Phase Matcher, refuting the
claim as stated. -/
theorem claim_C2_counterexample :
    ((layDownPhaseAction sessC2 0 [[cardR1, cardB1, cardR2], [cardG1, cardB2, cardG2]]).toOption.map
        (fun s => s.players.map (fun p => p.laidDownCards))) =
      some [[[cardR1, cardB1, cardR2], [cardG1, cardB2, cardG2]], []] ∧
    (validatePhase ([[cardR1, cardB1, cardR2], [cardG1, cardB2, cardG2]] :
        List (List Card)).flatten [⟨.set, 3, 2⟩]).valid = true ∧
    (validatePhase ([[cardR1, cardB1, cardR2], [cardG1, cardB2, cardG2]] :
        List (List Card)).flatten [⟨.set, 3, 2⟩]).groups =
      [[cardR1, cardB1, cardG1], [cardR2, cardB2, cardG2]] ∧
    ([[cardR1, cardB1, cardR2], [cardG1, cardB2, cardG2]] : List (List Card)) ≠
      [[cardR1, cardB1, cardG1], [cardR2, cardB2, cardG2]] := by
  decide

/-! ### C3: round scoring -/

set_option maxRecDepth 10000 in
/-- C3: seat A discards its last card (a 5, worth 5 points) and goes
out, which should leave A's round score at 0; but `handleRoundEnd` is
called with the player snapshots taken *before* the discard was removed
from A's hand, so A's "empty" hand still scores the discarded 5 and A
gains 5 points.  Seat B gains 25 + 15 = 40 as claimed, and only A's
phase index advances.  The computed result `[(5, 1), (40, 0)]` exhibits
the divergence from the claimed `[(0, 1), (40, 0)]`. -/
theorem claim_C3_bug :
    getCardPoints fiveC3 = 5 ∧
    (discardCardAction (fun k => k) (fun _ => 0) sessC3 0 fiveC3).toOption.map
        (fun s => s.players.map (fun p => (p.score, p.currentPhaseIndex))) =
      some [(5, 1), (40, 0)] := by
  decide

/-! ### C1: the conservation invariant -/

set_option maxRecDepth 10000 in
/-- C1: the conservation invariant is *not* preserved by every
successful action.  `layDownPhase` never checks that the submitted
cards are in the acting seat's hand: after a reachable draw the session
holds 108 cards, yet laying down six forged cards succeeds
(`removeCardById` silently misses, leaving both hands untouched) and
the session then holds 114 cards, with the six forged ids nowhere in
the deck.  The claim fails on this reachable state and successful
action. -/
theorem claim_C1_bug :
    demoAfterDraw.map (fun s => (sessionCards s).length) = some 108 ∧
    demoAfterLay.map (fun s => (sessionCards s).length) = some 114 ∧
    demoAfterLay.map (fun s => s.players.map (fun p => p.hand.length)) = some [11, 10] := by
  decide

end Phase10
